import Mathlib

/-!
Verification of the srx symbol-ranking compressor core (a shallow embedding
of the Rust sources under src/).  Machine integers are modelled as Nat with
explicit reductions modulo 2 ^ 32 or 2 ^ 64 exactly where the Rust types
wrap; byte histories, state-table entries and packed messages keep their
packed integer representations and are manipulated with the same shift and
mask operations as the source.  Components whose source file is absent from
the repository snapshot (the arithmetic bit decoder, the contents of the two
state tables, the Bit and ByteMatched enums) are modelled from the
specification and marked as such.
-/

set_option maxRecDepth 10000

namespace Srx

/-! ### Generic fixed-width bit arithmetic toolkit -/

theorem two_pow_pos (k : Nat) : 0 < 2 ^ k := Nat.pos_pow_of_pos k (by norm_num)

theorem div_two_pow_add {i k : Nat} (a b : Nat) (hik : i ≤ k) :
    (a * 2 ^ k + b) / 2 ^ i = a * 2 ^ (k - i) + b / 2 ^ i := by
  have hk : (2 : Nat) ^ k = 2 ^ i * 2 ^ (k - i) := by
    rw [← pow_add]
    congr 1
    omega
  have h1 : a * 2 ^ k + b = 2 ^ i * (a * 2 ^ (k - i)) + b := by rw [hk]; ring
  rw [h1, Nat.mul_add_div (two_pow_pos i)]

theorem testBit_two_pow_mul_add {b k : Nat} (a : Nat) (hb : b < 2 ^ k) (i : Nat) :
    (a * 2 ^ k + b).testBit i = if i < k then b.testBit i else a.testBit (i - k) := by
  rcases Nat.lt_or_ge i k with h | h
  · rw [if_pos h, Nat.testBit_to_div_mod, Nat.testBit_to_div_mod,
      div_two_pow_add a b (Nat.le_of_lt h)]
    have h2 : a * 2 ^ (k - i) = 2 * (a * 2 ^ (k - i - 1)) := by
      have h3 : (2 : Nat) ^ (k - i) = 2 * 2 ^ (k - i - 1) := by
        rw [← pow_succ']
        congr 1
        omega
      rw [h3]; ring
    rw [h2, Nat.mul_add_mod]
  · rw [if_neg (Nat.not_lt.mpr h), Nat.testBit_to_div_mod, Nat.testBit_to_div_mod]
    have h1 : (2 : Nat) ^ i = 2 ^ k * 2 ^ (i - k) := by
      rw [← pow_add]
      congr 1
      omega
    rw [h1, ← Nat.div_div_eq_div_mul, div_two_pow_add a b (Nat.le_refl k), Nat.sub_self,
      pow_zero, Nat.mul_one, Nat.div_eq_of_lt hb, Nat.add_zero]

theorem or_two_pow_split {b d k : Nat} (a c : Nat) (hb : b < 2 ^ k) (hd : d < 2 ^ k) :
    (a * 2 ^ k + b) ||| (c * 2 ^ k + d) = (a ||| c) * 2 ^ k + (b ||| d) := by
  have hbd : b ||| d < 2 ^ k := Nat.or_lt_two_pow hb hd
  apply Nat.eq_of_testBit_eq
  intro i
  rw [Nat.testBit_or, testBit_two_pow_mul_add a hb, testBit_two_pow_mul_add c hd,
    testBit_two_pow_mul_add (a ||| c) hbd]
  rcases Nat.lt_or_ge i k with h | h
  · simp [h, Nat.testBit_or]
  · simp [Nat.not_lt.mpr h, Nat.testBit_or]

theorem and_two_pow_split {b d k : Nat} (a c : Nat) (hb : b < 2 ^ k) (hd : d < 2 ^ k) :
    (a * 2 ^ k + b) &&& (c * 2 ^ k + d) = (a &&& c) * 2 ^ k + (b &&& d) := by
  have hbd : b &&& d < 2 ^ k := Nat.lt_of_le_of_lt Nat.and_le_left hb
  apply Nat.eq_of_testBit_eq
  intro i
  rw [Nat.testBit_and, testBit_two_pow_mul_add a hb, testBit_two_pow_mul_add c hd,
    testBit_two_pow_mul_add (a &&& c) hbd]
  rcases Nat.lt_or_ge i k with h | h
  · simp [h, Nat.testBit_and]
  · simp [Nat.not_lt.mpr h, Nat.testBit_and]

theorem xor_two_pow_split {b d k : Nat} (a c : Nat) (hb : b < 2 ^ k) (hd : d < 2 ^ k) :
    (a * 2 ^ k + b) ^^^ (c * 2 ^ k + d) = (a ^^^ c) * 2 ^ k + (b ^^^ d) := by
  have hbd : b ^^^ d < 2 ^ k := Nat.xor_lt_two_pow hb hd
  apply Nat.eq_of_testBit_eq
  intro i
  rw [Nat.testBit_xor, testBit_two_pow_mul_add a hb, testBit_two_pow_mul_add c hd,
    testBit_two_pow_mul_add (a ^^^ c) hbd]
  rcases Nat.lt_or_ge i k with h | h
  · simp [h, Nat.testBit_xor]
  · simp [Nat.not_lt.mpr h, Nat.testBit_xor]

theorem and_mask_arith (x j k : Nat) :
    x &&& (2 ^ j - 1) * 2 ^ k = x / 2 ^ k % 2 ^ j * 2 ^ k := by
  have h1 : x = x / 2 ^ k * 2 ^ k + x % 2 ^ k := by
    rw [Nat.mul_comm]
    exact (Nat.div_add_mod x (2 ^ k)).symm
  have h2 : (2 ^ j - 1) * 2 ^ k = (2 ^ j - 1) * 2 ^ k + 0 := (Nat.add_zero _).symm
  conv_lhs => rw [h1, h2]
  rw [and_two_pow_split (x / 2 ^ k) (2 ^ j - 1) (Nat.mod_lt x (two_pow_pos k)) (two_pow_pos k),
    Nat.and_pow_two_sub_one_eq_mod, Nat.and_zero, Nat.add_zero]

theorem or_mul_two_pow_add {y k : Nat} (x : Nat) (hy : y < 2 ^ k) :
    x * 2 ^ k ||| y = x * 2 ^ k + y := by
  have h1 : x * 2 ^ k = x * 2 ^ k + 0 := (Nat.add_zero _).symm
  have h2 : y = 0 * 2 ^ k + y := by rw [Nat.zero_mul, Nat.zero_add]
  conv_lhs => rw [h1, h2]
  rw [or_two_pow_split x 0 (two_pow_pos k) hy, Nat.or_zero, Nat.zero_or]

theorem xor_div_two_pow (x y k : Nat) : (x ^^^ y) / 2 ^ k = x / 2 ^ k ^^^ y / 2 ^ k := by
  have hx : x = x / 2 ^ k * 2 ^ k + x % 2 ^ k := by
    rw [Nat.mul_comm]
    exact (Nat.div_add_mod x (2 ^ k)).symm
  have hy : y = y / 2 ^ k * 2 ^ k + y % 2 ^ k := by
    rw [Nat.mul_comm]
    exact (Nat.div_add_mod y (2 ^ k)).symm
  conv_lhs => rw [hx, hy]
  rw [xor_two_pow_split (x / 2 ^ k) (y / 2 ^ k) (Nat.mod_lt x (two_pow_pos k))
    (Nat.mod_lt y (two_pow_pos k)),
    div_two_pow_add _ _ (Nat.le_refl k), Nat.sub_self, pow_zero, Nat.mul_one,
    Nat.div_eq_of_lt (Nat.xor_lt_two_pow (Nat.mod_lt x (two_pow_pos k))
      (Nat.mod_lt y (two_pow_pos k))), Nat.add_zero]

theorem xor_lt_two_pow_iff_div_eq (x y k : Nat) :
    (x ^^^ y) < 2 ^ k ↔ x / 2 ^ k = y / 2 ^ k := by
  constructor
  · intro h
    have h1 : (x ^^^ y) / 2 ^ k = 0 := Nat.div_eq_of_lt h
    rw [xor_div_two_pow] at h1
    exact Nat.xor_eq_zero.mp h1
  · intro h
    have h1 : (x ^^^ y) / 2 ^ k = 0 := by
      rw [xor_div_two_pow, h]
      exact Nat.xor_eq_zero.mpr rfl
    exact (Nat.div_eq_zero_iff (two_pow_pos k)).mp h1

/-! Specialisations of the mask lemmas to the literal masks used in the source. -/

theorem and_0xFF (x : Nat) : x &&& 0xFF = x % 256 := by
  have h := Nat.and_pow_two_sub_one_eq_mod x 8
  norm_num at h
  exact h

theorem and_0xFF00 (x : Nat) : x &&& 0xFF00 = x / 256 % 256 * 256 := by
  have h := and_mask_arith x 8 8
  norm_num at h
  exact h

theorem and_0xFF0000 (x : Nat) : x &&& 0xFF0000 = x / 65536 % 256 * 65536 := by
  have h := and_mask_arith x 8 16
  norm_num at h
  exact h

theorem and_0xFF000000 (x : Nat) : x &&& 0xFF000000 = x / 16777216 % 256 * 16777216 := by
  have h := and_mask_arith x 8 24
  norm_num at h
  exact h

theorem and_0xFFFFFF00 (x : Nat) : x &&& 0xFFFFFF00 = x / 256 % 16777216 * 256 := by
  have h := and_mask_arith x 24 8
  norm_num at h
  exact h

theorem and_0x00FFFF00 (x : Nat) : x &&& 0x00FFFF00 = x / 256 % 65536 * 256 := by
  have h := and_mask_arith x 16 8
  norm_num at h
  exact h

theorem and_0xFFFF (x : Nat) : x &&& 0xFFFF = x % 65536 := by
  have h := Nat.and_pow_two_sub_one_eq_mod x 16
  norm_num at h
  exact h

theorem and_0x3FFF (x : Nat) : x &&& 0x3FFF = x % 16384 := by
  have h := Nat.and_pow_two_sub_one_eq_mod x 14
  norm_num at h
  exact h

theorem and_0x3FFFFFFF (x : Nat) : x &&& 0x3FFFFFFF = x % 1073741824 := by
  have h := Nat.and_pow_two_sub_one_eq_mod x 30
  norm_num at h
  exact h

theorem and_0x7FFFFF00 (x : Nat) : x &&& 0x7FFFFF00 = x / 256 % 8388608 * 256 := by
  have h := and_mask_arith x 23 8
  norm_num at h
  exact h

theorem and_one (x : Nat) : x &&& 1 = x % 2 := Nat.and_one_is_mod x

theorem and_15 (x : Nat) : x &&& 15 = x % 16 := by
  have h := Nat.and_pow_two_sub_one_eq_mod x 4
  norm_num at h
  exact h

theorem shiftRight_arith (x k : Nat) : x >>> k = x / 2 ^ k := Nat.shiftRight_eq_div_pow x k

theorem shiftLeft_arith (x k : Nat) : x <<< k = x * 2 ^ k := Nat.shiftLeft_eq x k

/-! ### Basic types

Modelled from the spec: the files defining the Bit/Byte primitives and the
ByteMatched enum are not under src/ (only their uses are); per the spec a Bit
is a value in the set of 0 and 1, a Byte is an unsigned 8-bit integer (we use
Nat with explicit bounds), and ByteMatched is the four-way classification
MatchFirst / MatchSecond / MatchThird / NoMatch. -/

inductive Bit where
  | zero
  | one
deriving DecidableEq

def Bit.toNat : Bit → Nat
  | .zero => 0
  | .one => 1

def Bit.fromNat (n : Nat) : Bit := if n = 0 then .zero else .one

inductive ByteMatched where
  | matchFirst
  | matchSecond
  | matchThird
  | noMatch
deriving DecidableEq

/-! ### History states (primary_context/history.rs)

A HistoryState is the 64-bit packed value built by HistoryState::new; the
contents of the 256-entry STATE_TABLE live in a non-Rust include file that is
absent from the snapshot, so every definition below is parameterised by the
table, modelled from the spec as an arbitrary function from state indices to
packed HistoryState values. -/

def HistoryState.new (firstCount nextIfFirst nextIfSecond nextIfThird nextIfMiss : Nat) : Nat :=
  nextIfFirst ||| (nextIfSecond <<< 8) ||| (nextIfThird <<< 16) ||| (nextIfMiss <<< 24) |||
    (firstCount <<< 32)

def HistoryState.next (s : Nat) (matched : ByteMatched) : Nat :=
  match matched with
  | .matchFirst => s &&& 0xFF
  | .matchSecond => (s >>> 8) &&& 0xFF
  | .matchThird => (s >>> 16) &&& 0xFF
  | .noMatch => (s >>> 24) &&& 0xFF

def HistoryState.matchCount (s : Nat) : Nat := s >>> 32

/-! ### Byte history cells (primary_context/history.rs)

A ByteHistory is the 32-bit packed cell, layout (low to high bytes):
state index, first byte, second byte, third byte. -/

def ByteHistory.firstByte (h : Nat) : Nat := (h >>> 8) &&& 0xFF

def ByteHistory.secondByte (h : Nat) : Nat := (h >>> 16) &&& 0xFF

def ByteHistory.thirdByte (h : Nat) : Nat := h >>> 24

def ByteHistory.stateIndex (h : Nat) : Nat := h &&& 0xFF

/-- The branch of ByteHistory::matching that classifies the byte with xor
masks and computes the rotated byte part of the cell (state bits not yet
merged in). -/
def ByteHistory.matchingCell (h b : Nat) : ByteMatched × Nat :=
  let mask := h ^^^ (0x01010100 * b)
  if mask &&& 0x0000FF00 = 0 then
    (ByteMatched.matchFirst, h &&& 0xFFFFFF00)
  else if mask &&& 0x00FF0000 = 0 then
    (ByteMatched.matchSecond, (h &&& 0xFF000000) ||| (((h &&& 0x0000FF00) ||| b) <<< 8))
  else if mask &&& 0xFF000000 = 0 then
    (ByteMatched.matchThird, ((h &&& 0x00FFFF00) ||| b) <<< 8)
  else
    (ByteMatched.noMatch, ((h &&& 0x00FFFF00) ||| b) <<< 8)

/-- ByteHistory::matching: classify, rotate, then merge the successor state
index from the table. -/
def ByteHistory.matching (table : Nat → Nat) (h b : Nat) : ByteMatched × Nat :=
  let r := ByteHistory.matchingCell h b
  (r.1, r.2 ||| HistoryState.next (table (h &&& 0xFF)) r.1)

/-- The match arm of ByteHistory::matched: the rotated byte part of the cell
for an externally supplied outcome. -/
def ByteHistory.updatedCell (h b : Nat) (matched : ByteMatched) : Nat :=
  match matched with
  | .matchFirst => h &&& 0xFFFFFF00
  | .matchSecond => (h &&& 0xFF000000) ||| (((h &&& 0x0000FF00) ||| b) <<< 8)
  | .matchThird => ((h &&& 0x00FFFF00) ||| b) <<< 8
  | .noMatch => ((h &&& 0x00FFFF00) ||| b) <<< 8

/-- ByteHistory::matched: rotate for the supplied outcome, then merge the
successor state index from the table. -/
def ByteHistory.matched (table : Nat → Nat) (h b : Nat) (matched : ByteMatched) : Nat :=
  ByteHistory.updatedCell h b matched ||| HistoryState.next (table (h &&& 0xFF)) matched

/-- Driving a cell with matched and the outcome that matching classified
produces exactly the state matching produced. -/
theorem ByteHistory.matchedAgreesWithMatching (table : Nat → Nat) (h b : Nat) :
    ByteHistory.matched table h b (ByteHistory.matching table h b).1 =
      (ByteHistory.matching table h b).2 := by
  by_cases h1 : (h ^^^ 0x01010100 * b) &&& 0x0000FF00 = 0
  · simp [ByteHistory.matched, ByteHistory.matching, ByteHistory.matchingCell,
      ByteHistory.updatedCell, h1]
  · by_cases h2 : (h ^^^ 0x01010100 * b) &&& 0x00FF0000 = 0
    · simp [ByteHistory.matched, ByteHistory.matching, ByteHistory.matchingCell,
        ByteHistory.updatedCell, h1, h2]
    · by_cases h3 : (h ^^^ 0x01010100 * b) &&& 0xFF000000 = 0
      · simp [ByteHistory.matched, ByteHistory.matching, ByteHistory.matchingCell,
          ByteHistory.updatedCell, h1, h2, h3]
      · simp [ByteHistory.matched, ByteHistory.matching, ByteHistory.matchingCell,
          ByteHistory.updatedCell, h1, h2, h3]

/-! ### Primary context (primary_context/context.rs)

The context table (a heap buffer of SIZE ByteHistory cells, zero-initialised)
is modelled as a function from hash values to packed cells. -/

structure PrimaryContextInfo where
  previousByte : Nat
  firstByte : Nat
  secondByte : Nat
  thirdByte : Nat
  hashValue : Nat
  matchCount : Nat
deriving DecidableEq

structure PrimaryContext where
  previousByte : Nat
  hashValue : Nat
  context : Nat → Nat

def PrimaryContext.new : PrimaryContext :=
  { previousByte := 0, hashValue := 0, context := fun _ => 0 }

def PrimaryContext.getInfo (table : Nat → Nat) (c : PrimaryContext) : PrimaryContextInfo :=
  let currentHistory := c.context c.hashValue
  { previousByte := c.previousByte
    firstByte := ByteHistory.firstByte currentHistory
    secondByte := ByteHistory.secondByte currentHistory
    thirdByte := ByteHistory.thirdByte currentHistory
    hashValue := c.hashValue
    matchCount := HistoryState.matchCount (table (currentHistory &&& 0xFF)) }

def PrimaryContext.nextHash (SIZE hashValue nextByte : Nat) : Nat :=
  (hashValue * (5 <<< 5) + nextByte + 1) % SIZE

def PrimaryContext.matching (SIZE : Nat) (table : Nat → Nat) (c : PrimaryContext) (b : Nat) :
    ByteMatched × PrimaryContext :=
  let r := ByteHistory.matching table (c.context c.hashValue) b
  (r.1,
    { previousByte := b
      hashValue := PrimaryContext.nextHash SIZE c.hashValue b
      context := fun i => if i = c.hashValue then r.2 else c.context i })

def PrimaryContext.matched (SIZE : Nat) (table : Nat → Nat) (c : PrimaryContext) (b : Nat)
    (matched : ByteMatched) : PrimaryContext :=
  { previousByte := b
    hashValue := PrimaryContext.nextHash SIZE c.hashValue b
    context := fun i =>
      if i = c.hashValue then ByteHistory.matched table (c.context c.hashValue) b matched
      else c.context i }

/-- Updating a context with matched and the outcome that matching classified
produces exactly the context matching produced. -/
theorem PrimaryContext.matchedFollowsMatching (SIZE : Nat) (table : Nat → Nat) (c : PrimaryContext)
    (b : Nat) :
    PrimaryContext.matched SIZE table c b (PrimaryContext.matching SIZE table c b).1 =
      (PrimaryContext.matching SIZE table c b).2 := by
  simp only [PrimaryContext.matched, PrimaryContext.matching,
    ByteHistory.matchedAgreesWithMatching]

/-- Encoder-side driver: snapshots the context info before every step (and
once more at the end), classifies each byte with matching, and returns the
outcome transcript, the snapshot list and the final context. -/
def runMatching (SIZE : Nat) (table : Nat → Nat) :
    PrimaryContext → List Nat → List ByteMatched × List PrimaryContextInfo × PrimaryContext
  | c, [] => ([], [c.getInfo table], c)
  | c, b :: rest =>
    let r := c.matching SIZE table b
    let t := runMatching SIZE table r.2 rest
    (r.1 :: t.1, c.getInfo table :: t.2.1, t.2.2)

/-- Decoder-side driver: applies matched with externally supplied outcomes,
snapshotting the context info at the same points. -/
def runMatched (SIZE : Nat) (table : Nat → Nat) :
    PrimaryContext → List (Nat × ByteMatched) → List PrimaryContextInfo × PrimaryContext
  | c, [] => ([c.getInfo table], c)
  | c, (b, m) :: rest =>
    let t := runMatched SIZE table (c.matched SIZE table b m) rest
    (c.getInfo table :: t.1, t.2)

theorem runMatched_runMatching (SIZE : Nat) (table : Nat → Nat) (c : PrimaryContext)
    (bs : List Nat) :
    runMatched SIZE table c (bs.zip (runMatching SIZE table c bs).1) =
      ((runMatching SIZE table c bs).2.1, (runMatching SIZE table c bs).2.2) := by
  induction bs generalizing c with
  | nil => rfl
  | cons b rest ih =>
    simp only [runMatching, List.zip_cons_cons, runMatched,
      PrimaryContext.matchedFollowsMatching]
    simp only [List.zip] at ih
    rw [ih]

/-! ### Bridged context composition (codec/bridged.rs) -/

def PRIMARY_CONTEXT_SIZE : Nat := 1 <<< 24

def SECONDARY_CONTEXT_SIZE : Nat := 0x4000 * 256 + (1024 + 32) * 768

structure BridgedContextInfo where
  bitContext : Nat
  literalContext : Nat
  primaryContextInfo : PrimaryContextInfo

def BridgedContextInfo.new (info : PrimaryContextInfo) : BridgedContextInfo :=
  { bitContext := 0x4000 * 256 +
      (if info.matchCount < 4 then (info.previousByte <<< 2) ||| info.matchCount
       else 1024 + if info.matchCount - 4 ≤ 63 then (info.matchCount - 4) >>> 1 else 31) * 768
    literalContext := (info.hashValue &&& 0x3FFF) * 256
    primaryContextInfo := info }

def BridgedContextInfo.firstContext (s : BridgedContextInfo) : Nat :=
  s.bitContext + s.primaryContextInfo.firstByte

def BridgedContextInfo.secondContext (s : BridgedContextInfo) : Nat :=
  s.bitContext + 0x100 +
    ((s.primaryContextInfo.secondByte + s.primaryContextInfo.thirdByte) &&& 0xFF)

/-- The third context; the source computes (2 * second_byte).wrapping_sub
(third_byte) on usize, modelled with an explicit reduction modulo 2 ^ 64. -/
def BridgedContextInfo.thirdContext (s : BridgedContextInfo) : Nat :=
  s.bitContext + 0x200 +
    ((s.primaryContextInfo.secondByte * 2 + (18446744073709551616 - s.primaryContextInfo.thirdByte))
        % 18446744073709551616 &&& 0xFF)

def BridgedContextInfo.firstByte (s : BridgedContextInfo) : Nat :=
  s.primaryContextInfo.firstByte

def BridgedContextInfo.secondByte (s : BridgedContextInfo) : Nat :=
  s.primaryContextInfo.secondByte

def BridgedContextInfo.thirdByte (s : BridgedContextInfo) : Nat :=
  s.primaryContextInfo.thirdByte

/-! ### Secondary context (secondary_context/state/state.rs)

StateInfo is the 64-bit packed value built by StateInfo::new; the contents of
the secondary STATE_TABLE are again absent from the snapshot, so definitions
are parameterised by a table function from bit-state indices to packed
StateInfo values.  The secondary context itself (an array of 16-bit BitState
indices, zero-initialised) is modelled as a function from context indices to
state indices. -/

def StateInfo.new (prediction nextIfZero nextIfOne : Nat) : Nat :=
  (prediction <<< 32) ||| (nextIfZero <<< 16) ||| nextIfOne

def StateInfo.next (s : Nat) (bit : Bit) : Nat :=
  (match bit with
   | .one => s
   | .zero => s >>> 16) &&& 0xFFFF

def StateInfo.prediction (s : Nat) : Nat := (s >>> 32) % 4294967296

def SecondaryContext.getInfo (secTable : Nat → Nat) (sec : Nat → Nat) (i : Nat) : Nat :=
  secTable (sec i)

def SecondaryContext.update (sec : Nat → Nat) (currentState : Nat) (i : Nat) (bit : Bit) :
    Nat → Nat :=
  fun j => if j = i then StateInfo.next currentState bit else sec j

/-! ### Packed messages (codec/encoder.rs) -/

inductive Message where
  | bit (context : Nat) (b : Bit)
  | byte (context : Nat) (value : Nat)
deriving DecidableEq

/-- PackedMessage::bit: the context index is cast from usize to u32. -/
def PackedMessage.bit (context : Nat) (b : Bit) : Nat :=
  (b.toNat <<< 30) ||| (context % 4294967296)

/-- PackedMessage::byte: the context index is cast from usize to u32. -/
def PackedMessage.byte (context : Nat) (value : Nat) : Nat :=
  0x80000000 ||| (context % 4294967296) ||| value

def PackedMessage.get (v : Nat) : Message :=
  if v < 0x80000000 then Message.bit (v &&& 0x3FFFFFFF) (Bit.fromNat (v >>> 30))
  else Message.byte (v &&& 0x7FFFFF00) (v &&& 0xFF)

/-! ### Range coder, encoding side (secondary_context/encoder.rs)

The byte pipe that receives the coder output is modelled as the list of
emitted bytes.  The do-while normalisation loop of BitEncoder::flush is given
an explicit fuel of 4; the termination theorem below shows 4 iterations
always reach the exit condition, so the Option never hides behaviour. -/

structure BitEncoder where
  low : Nat
  high : Nat
deriving DecidableEq

def BitEncoder.new : BitEncoder := { low := 0, high := 0xFFFFFFFF }

/-- BitEncoder::flush, the body-first normalisation loop: emit the top byte
of low, shift a byte into low and high (u32 wraparound made explicit), and
repeat while the top bytes of low and high agree. -/
def encoderFlush : Nat → Nat → Nat → List Nat → Option (Nat × Nat × List Nat)
  | 0, _, _, _ => none
  | fuel + 1, low, high, out =>
    let out' := out ++ [low >>> 24]
    let low' := (low <<< 8) % 4294967296
    let high' := ((high <<< 8) % 4294967296) ||| 0xFF
    if (high' ^^^ low') < 0x01000000 then encoderFlush fuel low' high' out'
    else some (low', high', out')

/-- BitEncoder::bit. -/
def BitEncoder.bit (e : BitEncoder) (prediction : Nat) (b : Bit) (out : List Nat) :
    Option (BitEncoder × List Nat) :=
  let delta := ((e.high - e.low) * prediction) >>> 32
  let middle := e.low + delta
  let updated := middle + (b.toNat ^^^ 1)
  let low := match b with | .zero => updated | .one => e.low
  let high := match b with | .zero => e.high | .one => updated
  if (high ^^^ low) < 0x01000000 then
    match encoderFlush 4 low high out with
    | none => none
    | some (l, h, o) => some ({ low := l, high := h }, o)
  else
    some ({ low := low, high := high }, out)

/-- BitEncoder::close: write one final byte. -/
def BitEncoder.close (e : BitEncoder) (out : List Nat) : List Nat := out ++ [e.low >>> 24]

/-! ### Secondary context encoder stage (codec/encoder.rs) -/

structure SecEncoder where
  context : Nat → Nat
  encoder : BitEncoder
  out : List Nat

def SecEncoder.new : SecEncoder :=
  { context := fun _ => 0, encoder := BitEncoder.new, out := [] }

/-- SecondaryContextEncoder::bit: secondary get_info, update, then drive the
range coder with the prediction read before the update. -/
def SecEncoder.bit (secTable : Nat → Nat) (s : SecEncoder) (contextIndex : Nat) (b : Bit) :
    Option SecEncoder :=
  let currentState := SecondaryContext.getInfo secTable s.context contextIndex
  let context' := SecondaryContext.update s.context currentState contextIndex b
  match s.encoder.bit (StateInfo.prediction currentState) b s.out with
  | none => none
  | some (e', out') => some { context := context', encoder := e', out := out' }

/-- SecondaryContextEncoder::byte: two nibbles, four bits each. -/
def SecEncoder.byte (secTable : Nat → Nat) (s : SecEncoder) (contextIndex byteValue : Nat) :
    Option SecEncoder :=
  let high := (byteValue >>> 4) ||| 16
  (s.bit secTable (contextIndex + 1) (Bit.fromNat ((high >>> 3) &&& 1))).bind fun s =>
  (s.bit secTable (contextIndex + (high >>> 3)) (Bit.fromNat ((high >>> 2) &&& 1))).bind fun s =>
  (s.bit secTable (contextIndex + (high >>> 2)) (Bit.fromNat ((high >>> 1) &&& 1))).bind fun s =>
  (s.bit secTable (contextIndex + (high >>> 1)) (Bit.fromNat (high &&& 1))).bind fun s =>
  let lowContext := contextIndex + 15 * (high - 15)
  let low := (byteValue &&& 15) ||| 16
  (s.bit secTable (lowContext + 1) (Bit.fromNat ((low >>> 3) &&& 1))).bind fun s =>
  (s.bit secTable (lowContext + (low >>> 3)) (Bit.fromNat ((low >>> 2) &&& 1))).bind fun s =>
  (s.bit secTable (lowContext + (low >>> 2)) (Bit.fromNat ((low >>> 1) &&& 1))).bind fun s =>
  (s.bit secTable (lowContext + (low >>> 1)) (Bit.fromNat (low &&& 1)))

/-- SecondaryContextEncoder::encode: process the packed messages, then close
the bit encoder, returning the emitted byte stream. -/
def secondaryEncodeRun (secTable : Nat → Nat) : SecEncoder → List Nat → Option (List Nat)
  | s, [] => some (s.encoder.close s.out)
  | s, v :: rest =>
    (match PackedMessage.get v with
     | .bit i b => s.bit secTable i b
     | .byte i x => s.byte secTable i x).bind
      fun s' => secondaryEncodeRun secTable s' rest

/-! ### Primary context encoder stage (codec/encoder.rs) -/

/-- run_primary_context_encoder: per input byte, snapshot the bridged info,
classify with matching and emit the packed messages of the outcome; at end of
input emit the in-band EOF marker (NoMatch whose literal is the current first
byte). -/
def primaryEncoderRun (SIZE : Nat) (table : Nat → Nat) :
    PrimaryContext → List Nat → List Nat
  | c, [] =>
    let info := BridgedContextInfo.new (c.getInfo table)
    [PackedMessage.bit info.firstContext Bit.one,
     PackedMessage.bit info.secondContext Bit.zero,
     PackedMessage.byte info.literalContext info.firstByte]
  | c, b :: rest =>
    let info := BridgedContextInfo.new (c.getInfo table)
    let r := c.matching SIZE table b
    (match r.1 with
     | .matchFirst => [PackedMessage.bit info.firstContext Bit.zero]
     | .noMatch =>
       [PackedMessage.bit info.firstContext Bit.one,
        PackedMessage.bit info.secondContext Bit.zero,
        PackedMessage.byte info.literalContext b]
     | .matchSecond =>
       [PackedMessage.bit info.firstContext Bit.one,
        PackedMessage.bit info.secondContext Bit.one,
        PackedMessage.bit info.thirdContext Bit.zero]
     | .matchThird =>
       [PackedMessage.bit info.firstContext Bit.one,
        PackedMessage.bit info.secondContext Bit.one,
        PackedMessage.bit info.thirdContext Bit.one]) ++ primaryEncoderRun SIZE table r.2 rest

/-- encode: the composition of the pipeline stages (the pipes are pure
transport; their chunking is modelled separately). -/
def encodeModel (histTable secTable : Nat → Nat) (input : List Nat) : Option (List Nat) :=
  secondaryEncodeRun secTable SecEncoder.new
    (primaryEncoderRun PRIMARY_CONTEXT_SIZE histTable PrimaryContext.new input)

/-! ### Range coder, decoding side -/

/-- Modelled from the spec: the byte source primitive of the bit decoder.
The file src/secondary_context/decoder.rs (BitDecoder) is absent from the
snapshot; per spec section 4.7 the decoder consumes input bytes and treats
missing input as 0. -/
def decoderInput : List Nat → Nat × List Nat
  | [] => (0, [])
  | b :: rest => (b, rest)

structure BitDecoder where
  low : Nat
  high : Nat
  value : Nat
  input : List Nat

/-- Modelled from the spec: BitDecoder construction (decoder.rs absent);
low = 0, high = 0xFFFFFFFF, and the value register is initialised by
consuming the first four input bytes big-endian. -/
def BitDecoder.new (input : List Nat) : BitDecoder :=
  let r0 := decoderInput input
  let r1 := decoderInput r0.2
  let r2 := decoderInput r1.2
  let r3 := decoderInput r2.2
  { low := 0, high := 0xFFFFFFFF
    value := (((((r0.1 <<< 8) ||| r1.1) <<< 8) ||| r2.1) <<< 8) ||| r3.1
    input := r3.2 }

/-- Modelled from the spec: the decoder-side normalisation loop (decoder.rs
absent); identical to the encoder flush, with each shifted-out byte replaced
by consuming one input byte into the low byte of the value register. -/
def decoderFlush : Nat → Nat → Nat → Nat → List Nat → Option (Nat × Nat × Nat × List Nat)
  | 0, _, _, _, _ => none
  | fuel + 1, low, high, value, input =>
    let r := decoderInput input
    let low' := (low <<< 8) % 4294967296
    let high' := ((high <<< 8) % 4294967296) ||| 0xFF
    let value' := ((value <<< 8) % 4294967296) ||| r.1
    if (high' ^^^ low') < 0x01000000 then decoderFlush fuel low' high' value' r.2
    else some (low', high', value', r.2)

/-- Modelled from the spec: BitDecoder::bit (decoder.rs absent); same delta
and middle as the encoder, bit is 1 exactly when value is at most middle, and
the normalisation mirrors the encoder. -/
def BitDecoder.bit (d : BitDecoder) (prediction : Nat) : Option (Bit × BitDecoder) :=
  let delta := ((d.high - d.low) * prediction) >>> 32
  let middle := d.low + delta
  let b := if d.value ≤ middle then Bit.one else Bit.zero
  let low := match b with | .zero => middle + 1 | .one => d.low
  let high := match b with | .zero => d.high | .one => middle
  if (high ^^^ low) < 0x01000000 then
    match decoderFlush 4 low high d.value d.input with
    | none => none
    | some (l, h, v, inp) =>
      some (b, { low := l, high := h, value := v, input := inp })
  else
    some (b, { low := low, high := high, value := d.value, input := d.input })

/-! ### Combined context decoder (codec/decoder.rs) -/

structure CombinedContextDecoder where
  primaryContext : PrimaryContext
  secondaryContext : Nat → Nat
  decoder : BitDecoder

def CombinedContextDecoder.new (input : List Nat) : CombinedContextDecoder :=
  { primaryContext := PrimaryContext.new
    secondaryContext := fun _ => 0
    decoder := BitDecoder.new input }

/-- CombinedContextDecoder::bit: secondary get_info, decode one bit with the
prediction, then update the secondary context with the decoded bit. -/
def CombinedContextDecoder.bit (secTable : Nat → Nat) (d : CombinedContextDecoder)
    (contextIndex : Nat) : Option (Bit × CombinedContextDecoder) :=
  let currentState := SecondaryContext.getInfo secTable d.secondaryContext contextIndex
  match d.decoder.bit (StateInfo.prediction currentState) with
  | none => none
  | some (b, dec') =>
    some (b,
      { d with
        decoder := dec'
        secondaryContext := SecondaryContext.update d.secondaryContext currentState contextIndex b })

/-- CombinedContextDecoder::byte: rebuild the two nibbles bit by bit, using
the value built so far as the next context offset. -/
def CombinedContextDecoder.byteOp (secTable : Nat → Nat) (d : CombinedContextDecoder)
    (contextIndex : Nat) : Option (Nat × CombinedContextDecoder) :=
  match d.bit secTable (contextIndex + 1) with
  | none => none
  | some (b1, d) =>
    let h2 := 1 + (1 + b1.toNat)
    match d.bit secTable (contextIndex + h2) with
    | none => none
    | some (b2, d) =>
      let h3 := h2 + (h2 + b2.toNat)
      match d.bit secTable (contextIndex + h3) with
      | none => none
      | some (b3, d) =>
        let h4 := h3 + (h3 + b3.toNat)
        match d.bit secTable (contextIndex + h4) with
        | none => none
        | some (b4, d) =>
          let high := h4 + (h4 + b4.toNat)
          let lowContext := contextIndex + 15 * (high - 15)
          match d.bit secTable (lowContext + 1) with
          | none => none
          | some (c1, d) =>
            let l2 := 1 + (1 + c1.toNat)
            match d.bit secTable (lowContext + l2) with
            | none => none
            | some (c2, d) =>
              let l3 := l2 + (l2 + c2.toNat)
              match d.bit secTable (lowContext + l3) with
              | none => none
              | some (c3, d) =>
                let l4 := l3 + (l3 + c3.toNat)
                match d.bit secTable (lowContext + l4) with
                | none => none
                | some (c4, d) =>
                  let low := l4 + (l4 + c4.toNat)
                  some (((high - 16) <<< 4) ||| (low - 16), d)

/-- One iteration of CombinedContextDecoder::decode: either the in-band EOF
(no byte emitted, no primary update, decoding stops) or an emitted byte with
its outcome and the updated decoder. -/
inductive DecodeStep where
  | eof
  | emit (b : Nat) (m : ByteMatched) (d : CombinedContextDecoder)

/-- After classifying, the decoder pushes the byte and updates the primary
context via matched. -/
def CombinedContextDecoder.finish (SIZE : Nat) (histTable : Nat → Nat)
    (d : CombinedContextDecoder) (b : Nat) (m : ByteMatched) : DecodeStep :=
  DecodeStep.emit b m
    { d with primaryContext := d.primaryContext.matched SIZE histTable b m }

def CombinedContextDecoder.step (SIZE : Nat) (histTable secTable : Nat → Nat)
    (d : CombinedContextDecoder) : Option DecodeStep :=
  let info := BridgedContextInfo.new (d.primaryContext.getInfo histTable)
  match d.bit secTable info.firstContext with
  | none => none
  | some (Bit.zero, d) =>
    some (d.finish SIZE histTable info.firstByte ByteMatched.matchFirst)
  | some (Bit.one, d) =>
    match d.bit secTable info.secondContext with
    | none => none
    | some (Bit.zero, d) =>
      match d.byteOp secTable info.literalContext with
      | none => none
      | some (b, d) =>
        if b = info.firstByte then some DecodeStep.eof
        else some (d.finish SIZE histTable b ByteMatched.noMatch)
    | some (Bit.one, d) =>
      match d.bit secTable info.thirdContext with
      | none => none
      | some (Bit.zero, d) =>
        some (d.finish SIZE histTable info.secondByte ByteMatched.matchSecond)
      | some (Bit.one, d) =>
        some (d.finish SIZE histTable info.thirdByte ByteMatched.matchThird)

/-- The decode loop, with fuel; none means the fuel ran out (the Rust loop
would still be running) or a normalisation loop failed to terminate. -/
def decodeLoop (SIZE : Nat) (histTable secTable : Nat → Nat) :
    Nat → CombinedContextDecoder → List Nat → Option (List Nat)
  | 0, _, _ => none
  | fuel + 1, d, acc =>
    match d.step SIZE histTable secTable with
    | none => none
    | some DecodeStep.eof => some acc
    | some (DecodeStep.emit b _ d') => decodeLoop SIZE histTable secTable fuel d' (acc ++ [b])

def decodeModel (histTable secTable : Nat → Nat) (fuel : Nat) (input : List Nat) :
    Option (List Nat) :=
  decodeLoop PRIMARY_CONTEXT_SIZE histTable secTable fuel (CombinedContextDecoder.new input) []

/-! ### Concrete table instances

The contents of the two state tables are generated into include files that
are absent from the snapshot; the spec leaves them as a design parameter
(only their shape is fixed).  The instances below are legitimate
instantiations of that parameter used for concrete evaluations. -/

/-- Modelled from the spec: a concrete instance of the absent 256-entry
history state table — every state 0 with all successors 0 and first_count 0. -/
def histTableZero : Nat → Nat := fun _ => 0

/-- Modelled from the spec: a concrete instance of the absent secondary state
table — every entry predicts 1 with probability 2 ^ 30 / 2 ^ 32 and keeps
state 0. -/
def secTableQuarter : Nat → Nat := fun _ => StateInfo.new 0x40000000 0 0

/-- Modelled from the spec: a concrete instance of the absent secondary state
table — every entry predicts 1 with probability 2 ^ 31 / 2 ^ 32 and keeps
state 0. -/
def secTableHalf : Nat → Nat := fun _ => StateInfo.new 0x80000000 0 0

/-- Observation of a decode step that forgets the (function-valued) decoder
state, keeping only the emitted byte and outcome. -/
def DecodeStep.observe : DecodeStep → Option (Nat × ByteMatched)
  | .eof => none
  | .emit b m _ => some (b, m)

/-- Whatever the decode loop returns extends the accumulator it started
from. -/
theorem decodeLoop_extends (SIZE : Nat) (hT secT : Nat → Nat) :
    ∀ fuel d acc out, decodeLoop SIZE hT secT fuel d acc = some out →
      ∃ t, out = acc ++ t := by
  intro fuel
  induction fuel with
  | zero =>
    intro d acc out h
    cases h
  | succ n ih =>
    intro d acc out h
    simp only [decodeLoop] at h
    cases hs : d.step SIZE hT secT with
    | none => rw [hs] at h; cases h
    | some r =>
      rw [hs] at h
      cases r with
      | eof =>
        injection h with h
        exact ⟨[], by simp [h]⟩
      | emit b m d' =>
        obtain ⟨t, ht⟩ := ih d' (acc ++ [b]) out h
        exact ⟨b :: t, by simp [ht]⟩

/-- C1: the round trip fails on the empty input under the spec-modelled bit
decoder, which pads missing input with zero: the single flush byte emitted by
BitEncoder::close truncates the final interval, the last literal bit of the
in-band EOF marker is mis-decoded, the decoder reconstructs literal 1 instead
of first_byte 0, emits it as a NoMatch byte and never terminates with the
empty output. -/
theorem eof_truncation_breaks_roundtrip :
    encodeModel histTableZero secTableQuarter [] = some [0x3B] ∧
    ∀ fuel, (encodeModel histTableZero secTableQuarter []).bind
        (decodeModel histTableZero secTableQuarter fuel) ≠ some [] := by
  have henc : encodeModel histTableZero secTableQuarter [] = some [0x3B] := by decide
  refine ⟨henc, ?_⟩
  intro fuel hcontra
  rw [henc, Option.some_bind] at hcontra
  cases fuel with
  | zero => cases hcontra
  | succ n =>
    have hobs : (CombinedContextDecoder.step PRIMARY_CONTEXT_SIZE histTableZero secTableQuarter
        (CombinedContextDecoder.new [0x3B])).map DecodeStep.observe =
          some (some (1, ByteMatched.noMatch)) := by decide
    simp only [decodeModel, decodeLoop] at hcontra
    cases hs : CombinedContextDecoder.step PRIMARY_CONTEXT_SIZE histTableZero secTableQuarter
        (CombinedContextDecoder.new [0x3B]) with
    | none => rw [hs] at hcontra; cases hcontra
    | some r =>
      rw [hs] at hcontra hobs
      cases r with
      | eof => simp [DecodeStep.observe] at hobs
      | emit b m d' =>
        simp only [Option.map_some', DecodeStep.observe] at hobs
        injection hobs with hobs
        injection hobs with hobs
        obtain ⟨hb, hm⟩ := Prod.mk.injEq .. ▸ hobs
        obtain ⟨t, ht⟩ := decodeLoop_extends _ _ _ n d' ([] ++ [b]) [] hcontra
        simp at ht

/-- C2: primary symmetry — classifying a byte sequence with matching on a
fresh context and then driving a second fresh context with matched and the
recorded outcomes yields the identical final state (previous byte, hash and
the whole context table) and the identical get_info snapshot at every step. -/
theorem primary_symmetry (SIZE : Nat) (table : Nat → Nat) (bs : List Nat) :
    runMatched SIZE table PrimaryContext.new
        (bs.zip (runMatching SIZE table PrimaryContext.new bs).1) =
      ((runMatching SIZE table PrimaryContext.new bs).2.1,
        (runMatching SIZE table PrimaryContext.new bs).2.2) :=
  runMatched_runMatching SIZE table PrimaryContext.new bs

/-! ### Hash evolution (for C7) -/

/-- The hash recurrence as the spec states it. -/
def hashStep (SIZE h b : Nat) : Nat := (h * 160 + b + 1) % SIZE

/-- The hash value before each step and after the last one. -/
def hashTrace (SIZE : Nat) : Nat → List Nat → List Nat
  | h, [] => [h]
  | h, b :: rest => h :: hashTrace SIZE (hashStep SIZE h b) rest

theorem nextHash_eq_hashStep (SIZE h b : Nat) :
    PrimaryContext.nextHash SIZE h b = hashStep SIZE h b := rfl

theorem runMatching_hashes (SIZE : Nat) (table : Nat → Nat) (bs : List Nat) :
    ∀ c : PrimaryContext,
      ((runMatching SIZE table c bs).2.1.map PrimaryContextInfo.hashValue) =
        hashTrace SIZE c.hashValue bs := by
  induction bs with
  | nil => intro c; rfl
  | cons b rest ih =>
    intro c
    simp only [runMatching, List.map_cons, hashTrace]
    exact congrArg _ (ih _)

theorem runMatched_hashes (SIZE : Nat) (table : Nat → Nat) (ps : List (Nat × ByteMatched)) :
    ∀ c : PrimaryContext,
      ((runMatched SIZE table c ps).1.map PrimaryContextInfo.hashValue) =
        hashTrace SIZE c.hashValue (ps.map Prod.fst) := by
  induction ps with
  | nil => intro c; rfl
  | cons p rest ih =>
    intro c
    simp only [runMatched, List.map_cons, hashTrace]
    exact congrArg _ (ih _)

theorem hashTrace_bounded (SIZE : Nat) (hS : 0 < SIZE) (bs : List Nat) :
    ∀ h : Nat, h < SIZE → ∀ x ∈ hashTrace SIZE h bs, x < SIZE := by
  induction bs with
  | nil =>
    intro h hh x hx
    simp only [hashTrace, List.mem_singleton] at hx
    omega
  | cons b rest ih =>
    intro h hh x hx
    simp only [hashTrace, List.mem_cons] at hx
    rcases hx with hx | hx
    · omega
    · exact ih (hashStep SIZE h b) (Nat.mod_lt _ hS) x hx

/-- C7: with the bridged size 2 ^ 24, the hash value recorded in every
get_info snapshot follows the recurrence h * 160 + b + 1 mod 2 ^ 24 from seed
0 (previous_byte also seeded 0) on both the matching and the matched drivers,
and every hash in the trace lies below 2 ^ 24. -/
theorem hash_evolution (table : Nat → Nat) (bs : List Nat) (ps : List (Nat × ByteMatched)) :
    PRIMARY_CONTEXT_SIZE = 16777216 ∧
    PrimaryContext.new.previousByte = 0 ∧
    PrimaryContext.new.hashValue = 0 ∧
    ((runMatching PRIMARY_CONTEXT_SIZE table PrimaryContext.new bs).2.1.map
        PrimaryContextInfo.hashValue) = hashTrace PRIMARY_CONTEXT_SIZE 0 bs ∧
    ((runMatched PRIMARY_CONTEXT_SIZE table PrimaryContext.new ps).1.map
        PrimaryContextInfo.hashValue) = hashTrace PRIMARY_CONTEXT_SIZE 0 (ps.map Prod.fst) ∧
    (∀ x ∈ hashTrace PRIMARY_CONTEXT_SIZE 0 bs, x < PRIMARY_CONTEXT_SIZE) := by
  refine ⟨rfl, rfl, rfl, ?_, ?_, ?_⟩
  · exact runMatching_hashes _ table bs PrimaryContext.new
  · exact runMatched_hashes _ table ps PrimaryContext.new
  · exact hashTrace_bounded _ (by decide) bs 0 (by decide)

/-! ### Range coder invariants (for C3) -/

/-- The normalisation condition compares exactly the top bytes: the xor of
two 32-bit values is below 2 ^ 24 precisely when their top bytes agree. -/
theorem xor_top_byte_iff (x y : Nat) : (x ^^^ y) < 16777216 ↔ x / 16777216 = y / 16777216 := by
  have h := xor_lt_two_pow_iff_div_eq x y 24
  norm_num at h
  exact h

theorem shl8_mod_u32 (x : Nat) : (x <<< 8) % 4294967296 = x % 16777216 * 256 := by
  rw [shiftLeft_arith]
  have h1 : (2 : Nat) ^ 8 = 256 := by norm_num
  have h2 : (4294967296 : Nat) = 16777216 * 256 := by norm_num
  rw [h1, h2, Nat.mul_mod_mul_right]

theorem or_255 (x : Nat) : x * 256 ||| 255 = x * 256 + 255 := by
  have h := or_mul_two_pow_add x (show (255 : Nat) < 2 ^ 8 by norm_num)
  norm_num at h
  exact h

theorem delta_lt {low high p : Nat} (hlh : low < high) (hp : p < 4294967296) :
    ((high - low) * p) >>> 32 < high - low := by
  rw [shiftRight_arith]
  have hg : 0 < high - low := by omega
  have h1 : (2 : Nat) ^ 32 = 4294967296 := by norm_num
  rw [h1]
  apply Nat.div_lt_of_lt_mul
  have h3 : (high - low) * p < (high - low) * 4294967296 := mul_lt_mul_of_pos_left hp hg
  omega

/-- The do-while normalisation loop always exits within 4 iterations: each
iteration multiplies the width of the interval by 256 and adds 255, and the
loop can only continue while the width is below 2 ^ 24. -/
theorem encoderFlush_ok :
    ∀ fuel low high out, low ≤ high → high < 4294967296 →
      (high ^^^ low) < 16777216 →
      2 ^ (8 * (4 - fuel)) ≤ high - low + 1 →
      ∃ l h o, encoderFlush fuel low high out = some (l, h, o) ∧
        l < h ∧ h < 4294967296 ∧ ¬ (h ^^^ l) < 16777216 := by
  intro fuel
  induction fuel with
  | zero =>
    intro low high out h1 h2 hcond h4
    exfalso
    rw [xor_top_byte_iff] at hcond
    norm_num at h4
    omega
  | succ n ih =>
    intro low high out h1 h2 hcond h4
    rw [xor_top_byte_iff] at hcond
    simp only [encoderFlush, shl8_mod_u32, or_255]
    by_cases hc : (high % 16777216 * 256 + 255 ^^^ low % 16777216 * 256) < 16777216
    · rw [if_pos hc]
      apply ih
      · rw [xor_top_byte_iff] at hc
        omega
      · omega
      · exact hc
      · have hmul : 2 ^ (8 * (4 - (n + 1))) * 256 ≤ (high - low + 1) * 256 :=
          Nat.mul_le_mul_right 256 h4
        have hexp : 2 ^ (8 * (4 - n)) ≤ 2 ^ (8 * (4 - (n + 1))) * 256 := by
          have h256 : (256 : Nat) = 2 ^ 8 := by norm_num
          rw [h256, ← pow_add]
          exact Nat.pow_le_pow_right (by norm_num) (by omega)
        have hgap : (high - low + 1) * 256 = high % 16777216 * 256 + 255 - low % 16777216 * 256 + 1 := by
          omega
        omega
    · rw [if_neg hc]
      refine ⟨_, _, _, rfl, ?_, ?_, hc⟩
      · omega
      · omega

/-- C3: from a valid coder state (low below high, both 32-bit) and any 32-bit
prediction, the computed middle satisfies low at most middle below high; the
call returns (its normalisation loop terminates) with low below high restored,
and after normalisation the top byte of low (its value divided by 2 ^ 24)
differs from the top byte of high whenever the width is at least 2 ^ 24. -/
theorem bit_encoder_range_invariant (e : BitEncoder) (p : Nat) (b : Bit) (out : List Nat)
    (hlh : e.low < e.high) (hhi : e.high < 4294967296) (hp : p < 4294967296) :
    (e.low ≤ e.low + ((e.high - e.low) * p) >>> 32 ∧
      e.low + ((e.high - e.low) * p) >>> 32 < e.high) ∧
    ∃ e' out', e.bit p b out = some (e', out') ∧
      e'.low < e'.high ∧ e'.high < 4294967296 ∧
      (16777216 ≤ e'.high - e'.low → e'.high / 16777216 ≠ e'.low / 16777216) := by
  have hd : ((e.high - e.low) * p) >>> 32 < e.high - e.low := delta_lt hlh hp
  refine ⟨⟨Nat.le_add_right _ _, by omega⟩, ?_⟩
  simp only [BitEncoder.bit]
  cases b with
  | zero =>
    simp only [Bit.toNat]
    by_cases hc : (e.high ^^^ e.low + ((e.high - e.low) * p) >>> 32 + (0 ^^^ 1)) < 16777216
    · rw [if_pos hc]
      obtain ⟨l, h, o, heq, hlt, hbound, hne⟩ :=
        encoderFlush_ok 4 (e.low + ((e.high - e.low) * p) >>> 32 + (0 ^^^ 1)) e.high out
          (by simp only [Nat.zero_xor]; omega) hhi (by simpa using hc)
          (by norm_num)
      rw [heq]
      refine ⟨_, _, rfl, hlt, hbound, ?_⟩
      intro _
      rw [xor_top_byte_iff] at hne
      omega
    · rw [if_neg hc]
      refine ⟨_, _, rfl, ?_, hhi, ?_⟩
      · simp only [Nat.zero_xor] at hc ⊢
        rw [xor_top_byte_iff] at hc
        omega
      · intro _
        simp only [Nat.zero_xor] at hc ⊢
        rw [xor_top_byte_iff] at hc
        omega
  | one =>
    simp only [Bit.toNat]
    by_cases hc : (e.low + ((e.high - e.low) * p) >>> 32 + (1 ^^^ 1) ^^^ e.low) < 16777216
    · rw [if_pos hc]
      obtain ⟨l, h, o, heq, hlt, hbound, hne⟩ :=
        encoderFlush_ok 4 e.low (e.low + ((e.high - e.low) * p) >>> 32 + (1 ^^^ 1)) out
          (by simp only [Nat.xor_self]; omega) (by simp only [Nat.xor_self]; omega)
          (by simpa using hc) (by norm_num)
      rw [heq]
      refine ⟨_, _, rfl, hlt, hbound, ?_⟩
      intro _
      rw [xor_top_byte_iff] at hne
      omega
    · rw [if_neg hc]
      refine ⟨_, _, rfl, ?_, ?_, ?_⟩
      · simp only [Nat.xor_self] at hc ⊢
        rw [xor_top_byte_iff] at hc
        omega
      · simp only [Nat.xor_self]
        omega
      · intro _
        simp only [Nat.xor_self] at hc ⊢
        rw [xor_top_byte_iff] at hc
        omega

/-- Witness for C3 at the fresh coder state, prediction 2 ^ 31 and bit 0. -/
theorem bit_encoder_range_invariant_witness :
    (BitEncoder.new.low < BitEncoder.new.high ∧ BitEncoder.new.high < 4294967296 ∧
      (2147483648 : Nat) < 4294967296) ∧
    ((BitEncoder.new.low ≤ BitEncoder.new.low +
        ((BitEncoder.new.high - BitEncoder.new.low) * 2147483648) >>> 32 ∧
      BitEncoder.new.low + ((BitEncoder.new.high - BitEncoder.new.low) * 2147483648) >>> 32 <
        BitEncoder.new.high) ∧
    ∃ e' out', BitEncoder.new.bit 2147483648 Bit.zero [] = some (e', out') ∧
      e'.low < e'.high ∧ e'.high < 4294967296 ∧
      (16777216 ≤ e'.high - e'.low → e'.high / 16777216 ≠ e'.low / 16777216)) :=
  ⟨⟨by decide, by decide, by decide⟩,
    bit_encoder_range_invariant BitEncoder.new 2147483648 Bit.zero []
      (by decide) (by decide) (by decide)⟩

/-! ### Byte history characterisation (for C6) -/

theorem shl8_arith (x : Nat) : x <<< 8 = x * 256 := by
  rw [shiftLeft_arith]; norm_num

theorem or_mul256 {y : Nat} (x : Nat) (hy : y < 256) : x * 256 ||| y = x * 256 + y := by
  have h8 : y < 2 ^ 8 := by
    have h : (2 : Nat) ^ 8 = 256 := by norm_num
    omega
  have h := or_mul_two_pow_add x h8
  norm_num at h
  exact h

theorem or_mul16777216 {y : Nat} (x : Nat) (hy : y < 16777216) :
    x * 16777216 ||| y = x * 16777216 + y := by
  have h24 : y < 2 ^ 24 := by
    have h : (2 : Nat) ^ 24 = 16777216 := by norm_num
    omega
  have h := or_mul_two_pow_add x h24
  norm_num at h
  exact h

theorem or_mod256_eq_zero {s y : Nat} (hs : s % 256 = 0) (hy : y < 256) : s ||| y = s + y := by
  have h1 : s = s / 256 * 256 := by omega
  conv_lhs => rw [h1]
  rw [or_mul256 _ hy]
  omega

/-- The first mask test of ByteHistory::matching holds exactly when the first
ranked byte equals the incoming byte. -/
theorem mask_first_iff {b : Nat} (h : Nat) (hb : b < 256) :
    (h ^^^ 0x01010100 * b) &&& 0x0000FF00 = 0 ↔ h / 256 % 256 = b := by
  rw [Nat.and_xor_distrib_right, Nat.xor_eq_zero]
  simp only [and_0xFF00]
  have h1 : 16843008 * b / 256 % 256 = b := by omega
  rw [h1]
  constructor
  · intro hx
    exact Nat.eq_of_mul_eq_mul_right (by norm_num) hx
  · intro hx
    rw [hx]

theorem mask_second_iff {b : Nat} (h : Nat) (hb : b < 256) :
    (h ^^^ 0x01010100 * b) &&& 0x00FF0000 = 0 ↔ h / 65536 % 256 = b := by
  rw [Nat.and_xor_distrib_right, Nat.xor_eq_zero]
  simp only [and_0xFF0000]
  have h0 : 16843008 * b / 65536 = 257 * b := by omega
  have h1 : 16843008 * b / 65536 % 256 = b := by omega
  rw [h1]
  constructor
  · intro hx
    exact Nat.eq_of_mul_eq_mul_right (by norm_num) hx
  · intro hx
    rw [hx]

theorem mask_third_iff {b : Nat} (h : Nat) (hb : b < 256) :
    (h ^^^ 0x01010100 * b) &&& 0xFF000000 = 0 ↔ h / 16777216 % 256 = b := by
  rw [Nat.and_xor_distrib_right, Nat.xor_eq_zero]
  simp only [and_0xFF000000]
  have h0 : 16843008 * b / 16777216 = b := by omega
  have h1 : 16843008 * b / 16777216 % 256 = b := by omega
  rw [h1]
  constructor
  · intro hx
    exact Nat.eq_of_mul_eq_mul_right (by norm_num) hx
  · intro hx
    rw [hx]

theorem next_lt (s : Nat) (m : ByteMatched) : HistoryState.next s m < 256 := by
  cases m <;> simp only [HistoryState.next, and_0xFF] <;> omega

theorem firstByte_arith (h : Nat) : ByteHistory.firstByte h = h / 256 % 256 := by
  unfold ByteHistory.firstByte
  rw [shiftRight_arith, and_0xFF]
  norm_num

theorem secondByte_arith (h : Nat) : ByteHistory.secondByte h = h / 65536 % 256 := by
  unfold ByteHistory.secondByte
  rw [shiftRight_arith, and_0xFF]
  norm_num

theorem thirdByte_arith (h : Nat) : ByteHistory.thirdByte h = h / 16777216 := by
  unfold ByteHistory.thirdByte
  rw [shiftRight_arith]
  norm_num

theorem stateIndex_arith (h : Nat) : ByteHistory.stateIndex h = h % 256 := by
  unfold ByteHistory.stateIndex
  rw [and_0xFF]

theorem cell2_div65536 {b ns : Nat} (h : Nat) (hb : b < 256) (hns : ns < 256) :
    (h / 16777216 % 256 * 16777216 + (h / 256 % 256 * 256 + b) * 256 + ns) / 65536 % 256 =
      h / 256 % 256 := by
  have hd : (h / 16777216 % 256 * 16777216 + (h / 256 % 256 * 256 + b) * 256 + ns) / 65536 =
      h / 16777216 % 256 * 256 + h / 256 % 256 := by omega
  omega

theorem cell2_div16777216 {b ns : Nat} (h : Nat) (hb : b < 256) (hns : ns < 256) :
    (h / 16777216 % 256 * 16777216 + (h / 256 % 256 * 256 + b) * 256 + ns) / 16777216 =
      h / 16777216 % 256 := by omega

theorem cell2_div256 {b ns : Nat} (h : Nat) (hb : b < 256) (hns : ns < 256) :
    (h / 16777216 % 256 * 16777216 + (h / 256 % 256 * 256 + b) * 256 + ns) / 256 % 256 = b := by
  omega

theorem cell3_div65536 {b ns : Nat} (h : Nat) (hb : b < 256) (hns : ns < 256) :
    ((h / 256 % 65536 * 256 + b) * 256 + ns) / 65536 % 256 = h / 256 % 256 := by
  have hsplit : h / 256 % 65536 = h / 65536 % 256 * 256 + h / 256 % 256 := by omega
  omega

theorem cell3_div16777216 {b ns : Nat} (h : Nat) (hb : b < 256) (hns : ns < 256) :
    ((h / 256 % 65536 * 256 + b) * 256 + ns) / 16777216 = h / 65536 % 256 := by
  have hsplit : h / 256 % 65536 = h / 65536 % 256 * 256 + h / 256 % 256 := by omega
  omega

theorem cell3_div256 {b ns : Nat} (h : Nat) (hb : b < 256) (hns : ns < 256) :
    ((h / 256 % 65536 * 256 + b) * 256 + ns) / 256 % 256 = b := by omega

/-- C6: for every cell and every byte, ByteHistory::matching updates the cell
exactly per the ranking policy (MatchFirst keeps the trio; MatchSecond swaps
first and second; MatchThird and NoMatch shift first and second down and
install the byte on top) and installs the successor state index the table
prescribes for the outcome. -/
theorem byte_history_update_policy (table : Nat → Nat) (h b : Nat)
    (hh : h < 4294967296) (hb : b < 256) :
    ByteHistory.stateIndex (ByteHistory.matching table h b).2 =
      HistoryState.next (table (ByteHistory.stateIndex h)) (ByteHistory.matching table h b).1 ∧
    (match (ByteHistory.matching table h b).1 with
     | ByteMatched.matchFirst =>
       b = ByteHistory.firstByte h ∧
       ByteHistory.firstByte (ByteHistory.matching table h b).2 = ByteHistory.firstByte h ∧
       ByteHistory.secondByte (ByteHistory.matching table h b).2 = ByteHistory.secondByte h ∧
       ByteHistory.thirdByte (ByteHistory.matching table h b).2 = ByteHistory.thirdByte h
     | ByteMatched.matchSecond =>
       b = ByteHistory.secondByte h ∧
       ByteHistory.firstByte (ByteHistory.matching table h b).2 = b ∧
       ByteHistory.secondByte (ByteHistory.matching table h b).2 = ByteHistory.firstByte h ∧
       ByteHistory.thirdByte (ByteHistory.matching table h b).2 = ByteHistory.thirdByte h
     | ByteMatched.matchThird =>
       b = ByteHistory.thirdByte h ∧
       ByteHistory.firstByte (ByteHistory.matching table h b).2 = b ∧
       ByteHistory.secondByte (ByteHistory.matching table h b).2 = ByteHistory.firstByte h ∧
       ByteHistory.thirdByte (ByteHistory.matching table h b).2 = ByteHistory.secondByte h
     | ByteMatched.noMatch =>
       b ≠ ByteHistory.firstByte h ∧
       b ≠ ByteHistory.secondByte h ∧
       b ≠ ByteHistory.thirdByte h ∧
       ByteHistory.firstByte (ByteHistory.matching table h b).2 = b ∧
       ByteHistory.secondByte (ByteHistory.matching table h b).2 = ByteHistory.firstByte h ∧
       ByteHistory.thirdByte (ByteHistory.matching table h b).2 = ByteHistory.secondByte h) := by
  by_cases h1 : (h ^^^ 0x01010100 * b) &&& 0x0000FF00 = 0
  · have hr : ByteHistory.matching table h b =
        (ByteMatched.matchFirst, (h &&& 0xFFFFFF00) |||
          HistoryState.next (table (h &&& 0xFF)) ByteMatched.matchFirst) := by
      simp [ByteHistory.matching, ByteHistory.matchingCell, h1]
    have hnslt : HistoryState.next (table (h % 256)) ByteMatched.matchFirst < 256 :=
      next_lt _ _
    have hcell : (h &&& 0xFFFFFF00) ||| HistoryState.next (table (h % 256))
        ByteMatched.matchFirst = h / 256 % 16777216 * 256 +
          HistoryState.next (table (h % 256)) ByteMatched.matchFirst := by
      rw [and_0xFFFFFF00, or_mul256 _ hnslt]
    have hfb := (mask_first_iff h hb).mp h1
    rw [hr]
    simp only [and_0xFF, hcell, stateIndex_arith, firstByte_arith, secondByte_arith,
      thirdByte_arith]
    refine ⟨by omega, by omega, by omega, by omega, by omega⟩
  · by_cases h2 : (h ^^^ 0x01010100 * b) &&& 0x00FF0000 = 0
    · have hr : ByteHistory.matching table h b =
          (ByteMatched.matchSecond, ((h &&& 0xFF000000) |||
              (((h &&& 0x0000FF00) ||| b) <<< 8)) |||
            HistoryState.next (table (h &&& 0xFF)) ByteMatched.matchSecond) := by
        simp [ByteHistory.matching, ByteHistory.matchingCell, h1, h2]
      have hnslt : HistoryState.next (table (h % 256)) ByteMatched.matchSecond < 256 :=
        next_lt _ _
      have hcell : ((h &&& 0xFF000000) ||| (((h &&& 0x0000FF00) ||| b) <<< 8)) |||
          HistoryState.next (table (h % 256)) ByteMatched.matchSecond =
          h / 16777216 % 256 * 16777216 + (h / 256 % 256 * 256 + b) * 256 +
            HistoryState.next (table (h % 256)) ByteMatched.matchSecond := by
        rw [and_0xFF000000, and_0xFF00, or_mul256 _ hb, shl8_arith,
          or_mul16777216 _ (by omega), or_mod256_eq_zero (by omega) hnslt]
      have hsb := (mask_second_iff h hb).mp h2
      have hd1 := cell2_div65536 h hb hnslt
      have hd2 := cell2_div16777216 h hb hnslt
      have hd3 := cell2_div256 h hb hnslt
      rw [hr]
      simp only [and_0xFF, hcell, stateIndex_arith, firstByte_arith, secondByte_arith,
        thirdByte_arith]
      refine ⟨by omega, by omega, by omega, by omega, by omega⟩
    · by_cases h3 : (h ^^^ 0x01010100 * b) &&& 0xFF000000 = 0
      · have hr : ByteHistory.matching table h b =
            (ByteMatched.matchThird, (((h &&& 0x00FFFF00) ||| b) <<< 8) |||
              HistoryState.next (table (h &&& 0xFF)) ByteMatched.matchThird) := by
          simp [ByteHistory.matching, ByteHistory.matchingCell, h1, h2, h3]
        have hnslt : HistoryState.next (table (h % 256)) ByteMatched.matchThird < 256 :=
          next_lt _ _
        have hcell : (((h &&& 0x00FFFF00) ||| b) <<< 8) |||
            HistoryState.next (table (h % 256)) ByteMatched.matchThird =
            (h / 256 % 65536 * 256 + b) * 256 +
              HistoryState.next (table (h % 256)) ByteMatched.matchThird := by
          rw [and_0x00FFFF00, or_mul256 _ hb, shl8_arith, or_mod256_eq_zero (by omega) hnslt]
        have htb := (mask_third_iff h hb).mp h3
        have hd1 := cell3_div65536 h hb hnslt
        have hd2 := cell3_div16777216 h hb hnslt
        have hd3 := cell3_div256 h hb hnslt
        rw [hr]
        simp only [and_0xFF, hcell, stateIndex_arith, firstByte_arith, secondByte_arith,
          thirdByte_arith]
        refine ⟨by omega, by omega, by omega, by omega, by omega⟩
      · have hr : ByteHistory.matching table h b =
            (ByteMatched.noMatch, (((h &&& 0x00FFFF00) ||| b) <<< 8) |||
              HistoryState.next (table (h &&& 0xFF)) ByteMatched.noMatch) := by
          simp [ByteHistory.matching, ByteHistory.matchingCell, h1, h2, h3]
        have hnslt : HistoryState.next (table (h % 256)) ByteMatched.noMatch < 256 :=
          next_lt _ _
        have hcell : (((h &&& 0x00FFFF00) ||| b) <<< 8) |||
            HistoryState.next (table (h % 256)) ByteMatched.noMatch =
            (h / 256 % 65536 * 256 + b) * 256 +
              HistoryState.next (table (h % 256)) ByteMatched.noMatch := by
          rw [and_0x00FFFF00, or_mul256 _ hb, shl8_arith, or_mod256_eq_zero (by omega) hnslt]
        have hf := (mask_first_iff h hb).not.mp h1
        have hs := (mask_second_iff h hb).not.mp h2
        have ht := (mask_third_iff h hb).not.mp h3
        have hd1 := cell3_div65536 h hb hnslt
        have hd2 := cell3_div16777216 h hb hnslt
        have hd3 := cell3_div256 h hb hnslt
        rw [hr]
        simp only [and_0xFF, hcell, stateIndex_arith, firstByte_arith, secondByte_arith,
          thirdByte_arith]
        refine ⟨by omega, by omega, by omega, by omega, by omega, by omega, by omega⟩

/-- Witness for C6 at the zero table, cell 0x03020105 (state 5, ranked bytes
1, 2, 3) and incoming byte 2, which matches second. -/
theorem byte_history_update_policy_witness :
    ((50462981 : Nat) < 4294967296 ∧ (2 : Nat) < 256) ∧
    (ByteHistory.stateIndex (ByteHistory.matching histTableZero 50462981 2).2 =
      HistoryState.next (histTableZero (ByteHistory.stateIndex 50462981))
        (ByteHistory.matching histTableZero 50462981 2).1 ∧
    (match (ByteHistory.matching histTableZero 50462981 2).1 with
     | ByteMatched.matchFirst =>
       2 = ByteHistory.firstByte 50462981 ∧
       ByteHistory.firstByte (ByteHistory.matching histTableZero 50462981 2).2 =
         ByteHistory.firstByte 50462981 ∧
       ByteHistory.secondByte (ByteHistory.matching histTableZero 50462981 2).2 =
         ByteHistory.secondByte 50462981 ∧
       ByteHistory.thirdByte (ByteHistory.matching histTableZero 50462981 2).2 =
         ByteHistory.thirdByte 50462981
     | ByteMatched.matchSecond =>
       2 = ByteHistory.secondByte 50462981 ∧
       ByteHistory.firstByte (ByteHistory.matching histTableZero 50462981 2).2 = 2 ∧
       ByteHistory.secondByte (ByteHistory.matching histTableZero 50462981 2).2 =
         ByteHistory.firstByte 50462981 ∧
       ByteHistory.thirdByte (ByteHistory.matching histTableZero 50462981 2).2 =
         ByteHistory.thirdByte 50462981
     | ByteMatched.matchThird =>
       2 = ByteHistory.thirdByte 50462981 ∧
       ByteHistory.firstByte (ByteHistory.matching histTableZero 50462981 2).2 = 2 ∧
       ByteHistory.secondByte (ByteHistory.matching histTableZero 50462981 2).2 =
         ByteHistory.firstByte 50462981 ∧
       ByteHistory.thirdByte (ByteHistory.matching histTableZero 50462981 2).2 =
         ByteHistory.secondByte 50462981
     | ByteMatched.noMatch =>
       2 ≠ ByteHistory.firstByte 50462981 ∧
       2 ≠ ByteHistory.secondByte 50462981 ∧
       2 ≠ ByteHistory.thirdByte 50462981 ∧
       ByteHistory.firstByte (ByteHistory.matching histTableZero 50462981 2).2 = 2 ∧
       ByteHistory.secondByte (ByteHistory.matching histTableZero 50462981 2).2 =
         ByteHistory.firstByte 50462981 ∧
       ByteHistory.thirdByte (ByteHistory.matching histTableZero 50462981 2).2 =
         ByteHistory.secondByte 50462981)) :=
  ⟨⟨by decide, by decide⟩,
    byte_history_update_policy histTableZero 50462981 2 (by decide) (by decide)⟩

/-- C9: the packed message encoding round-trips with the stated layout: a bit
request for a context below 2 ^ 30 packs as the bit in bits 31:30 (the top
bit 0) with the index below, and a byte request for a 256-aligned context
below 2 ^ 31 packs as the top bit set, the index in bits 30:8 and the byte
value in the low byte; get recovers both exactly. -/
theorem packed_message_roundtrip (b : Bit) (c cb v : Nat)
    (hc : c < 1073741824) (hm : cb % 256 = 0) (hcb : cb < 2147483648) (hv : v < 256) :
    PackedMessage.bit c b = b.toNat * 1073741824 + c ∧
    PackedMessage.get (PackedMessage.bit c b) = Message.bit c b ∧
    PackedMessage.byte cb v = 2147483648 + cb + v ∧
    PackedMessage.get (PackedMessage.byte cb v) = Message.byte cb v := by
  have hbn : b.toNat < 2 := by cases b <;> simp [Bit.toNat]
  have h30 : (2 : Nat) ^ 30 = 1073741824 := by norm_num
  have h31 : (2 : Nat) ^ 31 = 2147483648 := by norm_num
  have hbit : PackedMessage.bit c b = b.toNat * 1073741824 + c := by
    unfold PackedMessage.bit
    rw [Nat.mod_eq_of_lt (by omega), shiftLeft_arith]
    have h := or_mul_two_pow_add (Bit.toNat b) (show c < 2 ^ 30 by omega)
    rw [h30] at h ⊢
    exact h
  have hbyte : PackedMessage.byte cb v = 2147483648 + cb + v := by
    unfold PackedMessage.byte
    rw [Nat.mod_eq_of_lt (by omega)]
    have h1 : (2147483648 : Nat) ||| cb = 2147483648 + cb := by
      have h := or_mul_two_pow_add 1 (show cb < 2 ^ 31 by omega)
      rw [h31] at h
      simpa using h
    rw [h1, or_mod256_eq_zero (by omega) hv]
  refine ⟨hbit, ?_, hbyte, ?_⟩
  · rw [hbit]
    unfold PackedMessage.get
    rw [if_pos (by omega)]
    rw [and_0x3FFFFFFF, shiftRight_arith, h30]
    have hmod : (b.toNat * 1073741824 + c) % 1073741824 = c := by omega
    have hdiv : (b.toNat * 1073741824 + c) / 1073741824 = b.toNat := by omega
    rw [hmod, hdiv]
    cases b <;> rfl
  · rw [hbyte]
    unfold PackedMessage.get
    rw [if_neg (by omega)]
    rw [and_0x7FFFFF00, and_0xFF]
    have h1 : (2147483648 + cb + v) / 256 % 8388608 * 256 = cb := by omega
    have h2 : (2147483648 + cb + v) % 256 = v := by omega
    rw [h1, h2]

/-- Witness for C9 at context 74565, bit one, byte context 512, value 171. -/
theorem packed_message_roundtrip_witness :
    ((74565 : Nat) < 1073741824 ∧ (512 : Nat) % 256 = 0 ∧ (512 : Nat) < 2147483648 ∧
      (171 : Nat) < 256) ∧
    (PackedMessage.bit 74565 Bit.one = Bit.one.toNat * 1073741824 + 74565 ∧
      PackedMessage.get (PackedMessage.bit 74565 Bit.one) = Message.bit 74565 Bit.one ∧
      PackedMessage.byte 512 171 = 2147483648 + 512 + 171 ∧
      PackedMessage.get (PackedMessage.byte 512 171) = Message.byte 512 171) :=
  ⟨⟨by decide, by decide, by decide, by decide⟩,
    packed_message_roundtrip Bit.one 74565 512 171 (by decide) (by decide) (by decide)
      (by decide)⟩

/-! ### Literal byte coding visits (for C4 and C8) -/

/-- The (context, bit) pairs visited by SecondaryContextEncoder::byte, in
order: four high-nibble bits from the tree offsets, then four low-nibble bits
in the sub-block selected by the high nibble. -/
def literalVisits (contextIndex byteValue : Nat) : List (Nat × Bit) :=
  let high := (byteValue >>> 4) ||| 16
  let lowContext := contextIndex + 15 * (high - 15)
  let low := (byteValue &&& 15) ||| 16
  [(contextIndex + 1, Bit.fromNat ((high >>> 3) &&& 1)),
   (contextIndex + (high >>> 3), Bit.fromNat ((high >>> 2) &&& 1)),
   (contextIndex + (high >>> 2), Bit.fromNat ((high >>> 1) &&& 1)),
   (contextIndex + (high >>> 1), Bit.fromNat (high &&& 1)),
   (lowContext + 1, Bit.fromNat ((low >>> 3) &&& 1)),
   (lowContext + (low >>> 3), Bit.fromNat ((low >>> 2) &&& 1)),
   (lowContext + (low >>> 2), Bit.fromNat ((low >>> 1) &&& 1)),
   (lowContext + (low >>> 1), Bit.fromNat (low &&& 1))]

/-- Folding SecondaryContextEncoder::bit over a list of requests. -/
def SecEncoder.bits (secTable : Nat → Nat) : SecEncoder → List (Nat × Bit) → Option SecEncoder
  | s, [] => some s
  | s, (i, b) :: rest => (s.bit secTable i b).bind fun s' => SecEncoder.bits secTable s' rest

theorem optionBindSome {α : Type} (x : Option α) : x.bind some = x := by
  cases x <;> rfl

/-- SecondaryContextEncoder::byte is exactly the fold of its bit operation
over the literal visit list. -/
theorem secEncoder_byte_eq_bits (secTable : Nat → Nat) (s : SecEncoder) (i v : Nat) :
    s.byte secTable i v = s.bits secTable (literalVisits i v) := by
  simp only [SecEncoder.byte, SecEncoder.bits, literalVisits, optionBindSome]

theorem nibble_or_16 (x : Nat) (hx : x < 16) : x ||| 16 = 16 + x := by
  rw [Nat.or_comm]
  have h16 : (2 : Nat) ^ 4 = 16 := by norm_num
  have h := or_mul_two_pow_add 1 (show x < 2 ^ 4 by rw [h16]; exact hx)
  rw [h16] at h
  simpa using h

theorem high_nibble_arith {v : Nat} (hv : v < 256) : (v >>> 4) ||| 16 = 16 + v / 16 := by
  rw [shiftRight_arith]
  have h16 : (2 : Nat) ^ 4 = 16 := by norm_num
  rw [h16]
  exact nibble_or_16 _ (by omega)

theorem low_nibble_arith (v : Nat) : (v &&& 15) ||| 16 = 16 + v % 16 := by
  rw [and_15]
  exact nibble_or_16 _ (by omega)

/-- Every context visited while coding a literal stays within 255 of the base
context. -/
theorem literalVisits_bound {v : Nat} (i : Nat) (hv : v < 256) :
    ∀ p ∈ literalVisits i v, i < p.1 ∧ p.1 ≤ i + 255 := by
  intro p hp
  simp only [literalVisits, high_nibble_arith hv, low_nibble_arith,
    List.mem_cons, List.not_mem_nil, or_false] at hp
  have hd : v / 16 < 16 := by omega
  have hm : v % 16 < 16 := by omega
  rcases hp with h | h | h | h | h | h | h | h <;> subst h <;>
    simp only [shiftRight_arith] <;> norm_num <;> omega

/-- C8 counterexample: the secondary table size written in the source is
5005312, not 4016128. -/
theorem secondary_size_numeral :
    SECONDARY_CONTEXT_SIZE = 5005312 ∧ ¬ SECONDARY_CONTEXT_SIZE = 4016128 := by
  constructor <;> decide

/-- C8 (amended): with N = 5005312, all four derived indices and every offset
visited during literal byte coding stay below N, for every snapshot whose
byte fields are bytes, every hash value and every match count. -/
theorem secondary_indices_in_bounds (info : PrimaryContextInfo)
    (hpb : info.previousByte < 256) (hfb : info.firstByte < 256)
    (hsb : info.secondByte < 256) (htb : info.thirdByte < 256) :
    SECONDARY_CONTEXT_SIZE = 5005312 ∧
    (BridgedContextInfo.new info).firstContext < SECONDARY_CONTEXT_SIZE ∧
    (BridgedContextInfo.new info).secondContext < SECONDARY_CONTEXT_SIZE ∧
    (BridgedContextInfo.new info).thirdContext < SECONDARY_CONTEXT_SIZE ∧
    (BridgedContextInfo.new info).literalContext < SECONDARY_CONTEXT_SIZE ∧
    ∀ v : Nat, v < 256 →
      ∀ p ∈ literalVisits (BridgedContextInfo.new info).literalContext v,
        p.1 < SECONDARY_CONTEXT_SIZE := by
  have hN : SECONDARY_CONTEXT_SIZE = 5005312 := by decide
  have hif : (if info.matchCount < 4 then (info.previousByte <<< 2) ||| info.matchCount
      else 1024 + if info.matchCount - 4 ≤ 63 then (info.matchCount - 4) >>> 1 else 31) ≤
        1055 := by
    split_ifs with hA hB
    · have h := or_mul_two_pow_add info.previousByte
        (show info.matchCount < 2 ^ 2 by norm_num; omega)
      norm_num at h
      rw [shiftLeft_arith]
      norm_num
      rw [h]
      omega
    · rw [shiftRight_arith]
      norm_num
      omega
    · omega
  have hlit : (BridgedContextInfo.new info).literalContext ≤ 4194048 := by
    simp only [BridgedContextInfo.new, and_0x3FFF]
    have h := Nat.mod_lt info.hashValue (show 0 < 16384 by norm_num)
    omega
  refine ⟨hN, ?_, ?_, ?_, by omega, ?_⟩
  · simp only [BridgedContextInfo.firstContext, BridgedContextInfo.new]
    omega
  · simp only [BridgedContextInfo.secondContext, BridgedContextInfo.new, and_0xFF]
    have h := Nat.mod_lt (info.secondByte + info.thirdByte) (show 0 < 256 by norm_num)
    omega
  · simp only [BridgedContextInfo.thirdContext, BridgedContextInfo.new, and_0xFF]
    have h := Nat.mod_lt ((info.secondByte * 2 +
        (18446744073709551616 - info.thirdByte)) % 18446744073709551616)
      (show 0 < 256 by norm_num)
    omega
  · intro v hv p hp
    have h := literalVisits_bound (BridgedContextInfo.new info).literalContext hv p hp
    omega

/-- Witness for C8 at a concrete snapshot. -/
theorem secondary_indices_in_bounds_witness :
    ((65 : Nat) < 256 ∧ (66 : Nat) < 256 ∧ (67 : Nat) < 256 ∧ (68 : Nat) < 256) ∧
    (SECONDARY_CONTEXT_SIZE = 5005312 ∧
      (BridgedContextInfo.new ⟨65, 66, 67, 68, 12345, 7⟩).firstContext <
        SECONDARY_CONTEXT_SIZE ∧
      (BridgedContextInfo.new ⟨65, 66, 67, 68, 12345, 7⟩).secondContext <
        SECONDARY_CONTEXT_SIZE ∧
      (BridgedContextInfo.new ⟨65, 66, 67, 68, 12345, 7⟩).thirdContext <
        SECONDARY_CONTEXT_SIZE ∧
      (BridgedContextInfo.new ⟨65, 66, 67, 68, 12345, 7⟩).literalContext <
        SECONDARY_CONTEXT_SIZE ∧
      ∀ v : Nat, v < 256 →
        ∀ p ∈ literalVisits (BridgedContextInfo.new ⟨65, 66, 67, 68, 12345, 7⟩).literalContext v,
          p.1 < SECONDARY_CONTEXT_SIZE) :=
  ⟨⟨by decide, by decide, by decide, by decide⟩,
    secondary_indices_in_bounds ⟨65, 66, 67, 68, 12345, 7⟩
      (by decide) (by decide) (by decide) (by decide)⟩

/-! ### Literal byte round trip (for C4) -/

/-- The secondary context evolution along a list of coded (context, bit)
pairs: get_info then update, as both codec sides perform per bit. -/
def secUpdates (secTable : Nat → Nat) : (Nat → Nat) → List (Nat × Bit) → (Nat → Nat)
  | sec, [] => sec
  | sec, (i, b) :: rest =>
    secUpdates secTable
      (SecondaryContext.update sec (SecondaryContext.getInfo secTable sec i) i b) rest

/-- A successful run of the encoder bit fold evolves the secondary context by
exactly the get_info / update discipline, independently of the coder. -/
theorem secEncoder_bits_context (secTable : Nat → Nat) :
    ∀ (vs : List (Nat × Bit)) (s s' : SecEncoder),
      SecEncoder.bits secTable s vs = some s' →
        s'.context = secUpdates secTable s.context vs := by
  intro vs
  induction vs with
  | nil =>
    intro s s' h
    injection h with h
    rw [← h]
    rfl
  | cons p rest ih =>
    intro s s' h
    obtain ⟨i, b⟩ := p
    simp only [SecEncoder.bits, SecEncoder.bit] at h
    cases hb : BitEncoder.bit s.encoder
        (StateInfo.prediction (SecondaryContext.getInfo secTable s.context i)) b s.out with
    | none => rw [hb] at h; cases h
    | some r =>
      rw [hb] at h
      simp only [Option.some_bind] at h
      have := ih _ _ h
      simpa [secUpdates] using this

def popBit : List Bit → Bit × List Bit
  | [] => (Bit.zero, [])
  | b :: rest => (b, rest)

/-- CombinedContextDecoder::byte with the range coder transport abstracted to
a supplied bit list: each decoded bit is the next list element, and the
secondary context performs the same get_info / update pair as the combined
decoder's bit operation.  Returns the rebuilt byte, the visited (context,
bit) pairs, the final secondary context and the unconsumed bits. -/
def decoderByteFromBits (secTable : Nat → Nat) (sec : Nat → Nat) (contextIndex : Nat)
    (bits : List Bit) : Nat × List (Nat × Bit) × (Nat → Nat) × List Bit :=
  let p1 := popBit bits
  let c1 := contextIndex + 1
  let sec1 := SecondaryContext.update sec (SecondaryContext.getInfo secTable sec c1) c1 p1.1
  let h2 := 1 + (1 + p1.1.toNat)
  let p2 := popBit p1.2
  let c2 := contextIndex + h2
  let sec2 := SecondaryContext.update sec1 (SecondaryContext.getInfo secTable sec1 c2) c2 p2.1
  let h3 := h2 + (h2 + p2.1.toNat)
  let p3 := popBit p2.2
  let c3 := contextIndex + h3
  let sec3 := SecondaryContext.update sec2 (SecondaryContext.getInfo secTable sec2 c3) c3 p3.1
  let h4 := h3 + (h3 + p3.1.toNat)
  let p4 := popBit p3.2
  let c4 := contextIndex + h4
  let sec4 := SecondaryContext.update sec3 (SecondaryContext.getInfo secTable sec3 c4) c4 p4.1
  let high := h4 + (h4 + p4.1.toNat)
  let lowContext := contextIndex + 15 * (high - 15)
  let q1 := popBit p4.2
  let d1 := lowContext + 1
  let secL1 := SecondaryContext.update sec4 (SecondaryContext.getInfo secTable sec4 d1) d1 q1.1
  let l2 := 1 + (1 + q1.1.toNat)
  let q2 := popBit q1.2
  let d2 := lowContext + l2
  let secL2 :=
    SecondaryContext.update secL1 (SecondaryContext.getInfo secTable secL1 d2) d2 q2.1
  let l3 := l2 + (l2 + q2.1.toNat)
  let q3 := popBit q2.2
  let d3 := lowContext + l3
  let secL3 :=
    SecondaryContext.update secL2 (SecondaryContext.getInfo secTable secL2 d3) d3 q3.1
  let l4 := l3 + (l3 + q3.1.toNat)
  let q4 := popBit q3.2
  let d4 := lowContext + l4
  let secL4 :=
    SecondaryContext.update secL3 (SecondaryContext.getInfo secTable secL3 d4) d4 q4.1
  let low := l4 + (l4 + q4.1.toNat)
  (((high - 16) <<< 4) ||| (low - 16),
   [(c1, p1.1), (c2, p2.1), (c3, p3.1), (c4, p4.1),
    (d1, q1.1), (d2, q2.1), (d3, q3.1), (d4, q4.1)],
   secL4, q4.2)

theorem toNat_fromNat_and_one (y : Nat) : (Bit.fromNat (y &&& 1)).toNat = y &&& 1 := by
  rw [and_one]
  rcases Nat.mod_two_eq_zero_or_one y with h | h <;> rw [h] <;> rfl

/-- Driving the abstracted decoder byte operation with exactly the bits the
encoder emits for a literal byte rebuilds that byte, visits the same
(context, bit) pairs, leaves the same secondary context, and consumes all the
bits. -/
theorem decoderByteFromBits_spec (secTable sec : Nat → Nat) (i v : Nat) (hv : v < 256) :
    decoderByteFromBits secTable sec i ((literalVisits i v).map Prod.snd) =
      (v, literalVisits i v, secUpdates secTable sec (literalVisits i v), []) := by
  have e2 : 1 + (1 + ((16 + v / 16) >>> 3 &&& 1)) = (16 + v / 16) >>> 3 := by
    rw [shiftRight_arith, and_one]
    norm_num
    omega
  have e3 : (16 + v / 16) >>> 3 + ((16 + v / 16) >>> 3 + ((16 + v / 16) >>> 2 &&& 1)) =
      (16 + v / 16) >>> 2 := by
    rw [shiftRight_arith, shiftRight_arith, and_one]
    norm_num
    omega
  have e4 : (16 + v / 16) >>> 2 + ((16 + v / 16) >>> 2 + ((16 + v / 16) >>> 1 &&& 1)) =
      (16 + v / 16) >>> 1 := by
    rw [shiftRight_arith, shiftRight_arith, and_one]
    norm_num
    omega
  have e5 : (16 + v / 16) >>> 1 + ((16 + v / 16) >>> 1 + (16 + v / 16 &&& 1)) =
      16 + v / 16 := by
    rw [shiftRight_arith, and_one]
    norm_num
    omega
  have f2 : 1 + (1 + ((16 + v % 16) >>> 3 &&& 1)) = (16 + v % 16) >>> 3 := by
    rw [shiftRight_arith, and_one]
    norm_num
    omega
  have f3 : (16 + v % 16) >>> 3 + ((16 + v % 16) >>> 3 + ((16 + v % 16) >>> 2 &&& 1)) =
      (16 + v % 16) >>> 2 := by
    rw [shiftRight_arith, shiftRight_arith, and_one]
    norm_num
    omega
  have f4 : (16 + v % 16) >>> 2 + ((16 + v % 16) >>> 2 + ((16 + v % 16) >>> 1 &&& 1)) =
      (16 + v % 16) >>> 1 := by
    rw [shiftRight_arith, shiftRight_arith, and_one]
    norm_num
    omega
  have f5 : (16 + v % 16) >>> 1 + ((16 + v % 16) >>> 1 + (16 + v % 16 &&& 1)) =
      16 + v % 16 := by
    rw [shiftRight_arith, and_one]
    norm_num
    omega
  have ebyte : ((16 + v / 16 - 16) <<< 4) ||| (16 + v % 16 - 16) = v := by
    have hx : 16 + v / 16 - 16 = v / 16 := by omega
    have hy : 16 + v % 16 - 16 = v % 16 := by omega
    have h16 : (2 : Nat) ^ 4 = 16 := by norm_num
    have h := or_mul_two_pow_add (v / 16) (show v % 16 < 2 ^ 4 by rw [h16]; omega)
    rw [h16] at h
    rw [hx, hy, shiftLeft_arith, h16, h]
    omega
  simp only [literalVisits, high_nibble_arith hv, low_nibble_arith, List.map_cons,
    List.map_nil, decoderByteFromBits, popBit, secUpdates, toNat_fromNat_and_one]
  rw [e2, e3, e4, e5, f2, f3, f4, f5, ebyte]

/-- C4: coding a literal byte at base context i: the encoder's byte operation
is the fold of its bit operation over the literal visit list (the high nibble
at offsets 1, high over 8, high over 4, high over 2 and the low nibble in the
sub-block at 15 times (high minus 15)); any successful encoder run evolves
the secondary context by the shared get_info then update discipline; and the
decoder's byte operation, fed the same bits from the identical secondary
state, rebuilds the original byte, visits the identical (context, bit)
sequence, and reaches the identical secondary state. -/
theorem literal_byte_roundtrip (secTable sec : Nat → Nat) (i : Nat) (v : Fin 256) :
    (∀ s : SecEncoder, s.byte secTable i v.val = s.bits secTable (literalVisits i v.val)) ∧
    (∀ s s' : SecEncoder, s.context = sec →
      SecEncoder.bits secTable s (literalVisits i v.val) = some s' →
        s'.context = secUpdates secTable sec (literalVisits i v.val)) ∧
    decoderByteFromBits secTable sec i ((literalVisits i v.val).map Prod.snd) =
      (v.val, literalVisits i v.val, secUpdates secTable sec (literalVisits i v.val), []) := by
  refine ⟨fun s => secEncoder_byte_eq_bits secTable s i v.val, ?_, ?_⟩
  · intro s s' hs h
    rw [← hs]
    exact secEncoder_bits_context secTable _ s s' h
  · exact decoderByteFromBits_spec secTable sec i v.val v.isLt

/-- Witness for C4 at the constant half table, the zero secondary state, base
context 0 and byte 65. -/
theorem literal_byte_roundtrip_witness :
    SecEncoder.new.byte secTableHalf 0 65 =
      SecEncoder.new.bits secTableHalf (literalVisits 0 65) ∧
    decoderByteFromBits secTableHalf (fun _ => 0) 0 ((literalVisits 0 65).map Prod.snd) =
      (65, literalVisits 0 65, secUpdates secTableHalf (fun _ => 0) (literalVisits 0 65), []) :=
  ⟨(literal_byte_roundtrip secTableHalf (fun _ => 0) 0 ⟨65, by decide⟩).1 SecEncoder.new,
    (literal_byte_roundtrip secTableHalf (fun _ => 0) 0 ⟨65, by decide⟩).2.2⟩

/-! ### In-band EOF behaviour (for C5) -/

theorem matching_noMatch_ne_first (table : Nat → Nat) (h b : Nat) (hb : b < 256)
    (hm : (ByteHistory.matching table h b).1 = ByteMatched.noMatch) :
    b ≠ ByteHistory.firstByte h := by
  by_cases h1 : (h ^^^ 0x01010100 * b) &&& 0x0000FF00 = 0
  · exfalso
    simp [ByteHistory.matching, ByteHistory.matchingCell, h1] at hm
  · intro hcontra
    apply h1
    rw [mask_first_iff h hb]
    rw [firstByte_arith] at hcontra
    omega

/-- The decoder stops exactly on a decoded NoMatch whose literal equals the
first ranked byte. -/
theorem step_eof_iff (SIZE : Nat) (hT secT : Nat → Nat) (d : CombinedContextDecoder) :
    CombinedContextDecoder.step SIZE hT secT d = some DecodeStep.eof ↔
      ∃ d1 d2 b d3,
        d.bit secT (BridgedContextInfo.new (d.primaryContext.getInfo hT)).firstContext =
          some (Bit.one, d1) ∧
        d1.bit secT (BridgedContextInfo.new (d.primaryContext.getInfo hT)).secondContext =
          some (Bit.zero, d2) ∧
        d2.byteOp secT (BridgedContextInfo.new (d.primaryContext.getInfo hT)).literalContext =
          some (b, d3) ∧
        b = (BridgedContextInfo.new (d.primaryContext.getInfo hT)).firstByte := by
  constructor
  · intro h
    simp only [CombinedContextDecoder.step] at h
    split at h
    · cases h
    · simp [CombinedContextDecoder.finish] at h
    · rename_i d1 hb1
      split at h
      · cases h
      · rename_i d2 hb2
        split at h
        · cases h
        · rename_i b d3 hb3
          split at h
          · rename_i hfb
            exact ⟨d1, d2, b, d3, hb1, hb2, hb3, hfb⟩
          · simp [CombinedContextDecoder.finish] at h
      · rename_i d2 hb2
        split at h
        · cases h
        · simp [CombinedContextDecoder.finish] at h
        · simp [CombinedContextDecoder.finish] at h
  · rintro ⟨d1, d2, b, d3, h1, h2, h3, h4⟩
    simp only [CombinedContextDecoder.step, h1, h2, h3]
    rw [if_pos h4]

/-- On the in-band EOF the loop returns the accumulated output unchanged: the
literal is not emitted, the primary context is not updated, and no further
decode step runs. -/
theorem decodeLoop_stops_on_eof (SIZE : Nat) (hT secT : Nat → Nat)
    (d : CombinedContextDecoder) (fuel : Nat) (acc : List Nat)
    (h : CombinedContextDecoder.step SIZE hT secT d = some DecodeStep.eof) :
    decodeLoop SIZE hT secT (fuel + 1) d acc = some acc := by
  simp only [decodeLoop, h]

/-- C5: at end of input the encoder emits exactly bit 1 at first_context, bit
0 at second_context and the literal first_byte at literal_context; the
decoder terminates exactly when the decoded NoMatch literal equals
first_byte, and then emits nothing further and performs no primary update;
and a genuine NoMatch classified from a real byte can never carry a literal
equal to the first ranked byte. -/
theorem eof_marker_behaviour (SIZE : Nat) (hT secT : Nat → Nat) :
    (∀ c : PrimaryContext,
      primaryEncoderRun SIZE hT c [] =
        [PackedMessage.bit (BridgedContextInfo.new (c.getInfo hT)).firstContext Bit.one,
         PackedMessage.bit (BridgedContextInfo.new (c.getInfo hT)).secondContext Bit.zero,
         PackedMessage.byte (BridgedContextInfo.new (c.getInfo hT)).literalContext
           (BridgedContextInfo.new (c.getInfo hT)).firstByte]) ∧
    (∀ d : CombinedContextDecoder,
      CombinedContextDecoder.step SIZE hT secT d = some DecodeStep.eof ↔
        ∃ d1 d2 b d3,
          d.bit secT (BridgedContextInfo.new (d.primaryContext.getInfo hT)).firstContext =
            some (Bit.one, d1) ∧
          d1.bit secT (BridgedContextInfo.new (d.primaryContext.getInfo hT)).secondContext =
            some (Bit.zero, d2) ∧
          d2.byteOp secT
              (BridgedContextInfo.new (d.primaryContext.getInfo hT)).literalContext =
            some (b, d3) ∧
          b = (BridgedContextInfo.new (d.primaryContext.getInfo hT)).firstByte) ∧
    (∀ (d : CombinedContextDecoder) (fuel : Nat) (acc : List Nat),
      CombinedContextDecoder.step SIZE hT secT d = some DecodeStep.eof →
        decodeLoop SIZE hT secT (fuel + 1) d acc = some acc) ∧
    (∀ h b : Nat, b < 256 → (ByteHistory.matching hT h b).1 = ByteMatched.noMatch →
      b ≠ ByteHistory.firstByte h) :=
  ⟨fun _ => rfl,
   fun d => step_eof_iff SIZE hT secT d,
   fun d fuel acc h => decodeLoop_stops_on_eof SIZE hT secT d fuel acc h,
   fun h b hb hm => matching_noMatch_ne_first hT h b hb hm⟩

/-- Witness for C5: byte 5 against the zero-table cell 0x103 (first ranked
byte 1) classifies as NoMatch and its literal differs from the first byte. -/
theorem eof_marker_behaviour_witness :
    ((5 : Nat) < 256 ∧ (ByteHistory.matching histTableZero 259 5).1 = ByteMatched.noMatch) ∧
    (5 : Nat) ≠ ByteHistory.firstByte 259 :=
  ⟨⟨by decide, by decide⟩,
    (eof_marker_behaviour 16777216 histTableZero secTableHalf).2.2.2 259 5
      (by decide) (by decide)⟩

/-! ### Pipe transport (for C10) -/

/-- The functional content of the buffered pipe (basic/pipe.rs): the producer
fills fixed-size buffers, sending each when full and the non-empty remainder
on close; the consumer drains them element by element in FIFO order with no
loss.  The delivered stream is the concatenation of the chunks. -/
def pipeChunks {α : Type} (SIZE : Nat) : List α → List (List α)
  | [] => []
  | x :: rest =>
    if h : SIZE = 0 then [x :: rest]
    else (x :: rest).take SIZE :: pipeChunks SIZE ((x :: rest).drop SIZE)
termination_by l => l.length
decreasing_by
  simp only [List.length_drop, List.length_cons]
  omega

theorem pipeChunks_flatten_aux {α : Type} (SIZE : Nat) :
    ∀ (n : Nat) (l : List α), l.length ≤ n → (pipeChunks SIZE l).flatten = l := by
  intro n
  induction n with
  | zero =>
    intro l hl
    cases l with
    | nil => simp [pipeChunks]
    | cons x rest => simp at hl
  | succ n ih =>
    intro l hl
    cases l with
    | nil => simp [pipeChunks]
    | cons x rest =>
      by_cases h : SIZE = 0
      · subst h
        simp [pipeChunks]
      · rw [pipeChunks, dif_neg h, List.flatten_cons,
          ih _ (by simp only [List.length_drop, List.length_cons] at *; omega),
          List.take_append_drop]

theorem pipeChunks_flatten {α : Type} (SIZE : Nat) (l : List α) :
    (pipeChunks SIZE l).flatten = l :=
  pipeChunks_flatten_aux SIZE l.length l (Nat.le_refl _)

/-- encode with the three pipe transports (reader to primary, primary to
secondary, secondary to writer) made explicit, with the byte-pipe and
message-pipe buffer capacities as parameters. -/
def encodePiped (histTable secTable : Nat → Nat) (ioSize msgSize : Nat) (input : List Nat) :
    Option (List Nat) :=
  (secondaryEncodeRun secTable SecEncoder.new
      ((pipeChunks msgSize (primaryEncoderRun PRIMARY_CONTEXT_SIZE histTable
        PrimaryContext.new ((pipeChunks ioSize input).flatten))).flatten)).map
    (fun out => (pipeChunks ioSize out).flatten)

/-- C10: the compressed output is a function of the input alone — inserting
the pipe transports with any buffer capacities gives output byte-identical to
the direct (transport-free) composition, hence identical across repeated
invocations and across different capacity choices. -/
theorem encode_independent_of_buffering (histTable secTable : Nat → Nat)
    (s1 s2 s1' s2' : Nat) (input : List Nat) :
    encodePiped histTable secTable s1 s2 input = encodeModel histTable secTable input ∧
    encodePiped histTable secTable s1 s2 input =
      encodePiped histTable secTable s1' s2' input := by
  have key : ∀ a b : Nat, encodePiped histTable secTable a b input =
      encodeModel histTable secTable input := by
    intro a b
    unfold encodePiped encodeModel
    rw [pipeChunks_flatten, pipeChunks_flatten]
    cases hx : secondaryEncodeRun secTable SecEncoder.new
        (primaryEncoderRun PRIMARY_CONTEXT_SIZE histTable PrimaryContext.new input) with
    | none => simp
    | some out => simp [pipeChunks_flatten]
  exact ⟨key s1 s2, (key s1 s2).trans (key s1' s2').symm⟩

end Srx
